import Mathlib

/-!
# Verification of the statistical analysis engine

Shallow embedding of `server/services/statisticalAnalysis.ts` (class
`StatisticalAnalysis`), the core statistical engine of the repository.

Modelling conventions:

* Raw table cells are dynamically typed in the source (string | number |
  null | undefined | the empty string).  We model them as a tagged variant
  `Cell`: `missing` covers `null`, `undefined` and `''` (exactly the values
  removed by the `detectVariables` filter); `num q` covers a cell whose
  string rendering parses as a (finite) number under `parseFloat`, carrying
  the parsed value; `str s` covers a cell whose rendering fails the parse
  (`isNaN(parseFloat(...))`).
* JavaScript IEEE-754 doubles are modelled by exact rationals `ℚ` where the
  source only adds/multiplies/divides/compares, and by reals `ℝ` where the
  source takes square roots or powers (`Math.sqrt`, `Math.pow`, `Math.exp`).
  The literal `0.8` in the 80%-threshold test is modelled as `4/5`
  (the IEEE rounding of `columnData.length * 0.8` never crosses an integer
  for any attainable column length, so the strict comparison agrees).
* JavaScript division by zero produces `Infinity`/`NaN`; Lean's total
  division produces `0`.  Each place where the distinction is observable is
  modelled explicitly with a branch and a comment (see
  `calculateCorrelationPValue` and `assessDataQuality`).
* The `simple-statistics` library functions (`mean`, `median`, `mode`,
  `variance`, `standardDeviation`, `min`, `max`, `quantile`) are imported
  by the engine but their source is not part of this repository; they are
  modelled from the spec (§4.2: population variance, linear-interpolation
  quantile method) where their exact behaviour matters.
-/

namespace StatisticalAnalysis

/-- A raw table cell.  `missing` stands for `null`/`undefined`/`''` (the
values filtered out by `detectVariables`); `num q` a cell parsing to the
finite number `q` under `parseFloat(String(value))`; `str s` a cell whose
string form fails the numeric parse. -/
inductive Cell where
  | missing : Cell
  | num (q : ℚ) : Cell
  | str (s : String) : Cell
deriving DecidableEq, Repr

/-- `parseFloat(String(value))` followed by the `isNaN` test, on a
non-missing cell: succeeds exactly on `num` cells. -/
def parseCell : Cell → Option ℚ
  | Cell.num q => some q
  | _ => none

/-- `String(value)`: the key used when a cell is entered into a categorical
frequency table.  JS number-to-string formatting is modelled by `toString`
on the rational (the exact rendering is irrelevant to every claim). -/
def cellKey : Cell → String
  | Cell.missing => ""
  | Cell.num q => toString q
  | Cell.str s => s

/-- The `values` field of a detected `Variable`: a numerical variable holds
the parsed numbers, a categorical one the original non-missing cells
(mirrors `values: any[]` whose content depends on `type`). -/
inductive VarValues where
  | numerical (vals : List ℚ) : VarValues
  | categorical (vals : List Cell) : VarValues
deriving DecidableEq, Repr

/-- `Variable` (interface `Variable` in the source; the `type` tag is
carried by the `VarValues` variant). -/
structure Variable where
  name : String
  values : VarValues
  missingCount : ℕ
deriving DecidableEq, Repr

/-- `variable.type === 'numerical'`. -/
def Variable.isNumerical (v : Variable) : Bool :=
  match v.values with
  | VarValues.numerical _ => true
  | VarValues.categorical _ => false

/-- The numeric value list of a numerical variable (`variable.values as
number[]`); `[]` for a categorical variable. -/
def Variable.numVals (v : Variable) : List ℚ :=
  match v.values with
  | VarValues.numerical l => l
  | VarValues.categorical _ => []

/-- The raw entry keys of a variable as seen by the categorical branch of
`calculateDescriptiveStats` (`String(value)` for each element of
`variable.values`). -/
def Variable.entryKeys (v : Variable) : List String :=
  match v.values with
  | VarValues.numerical l => l.map toString
  | VarValues.categorical l => l.map cellKey

/-! ## simple-statistics helpers

Modelled from the spec: the `simple-statistics` package is an external
dependency (its source is not in this repository).  §4.2 of the spec fixes
the conventions: population (divide-by-n) variance and standard deviation,
and the linear-interpolation quantile method (the method reproducing the
spec's worked example Q1 = 2.25 for `[1,2,3,4,5,100]`, i.e. type-7
quantiles at rank `h = (n−1)·p`). -/

/-- `mean(x)` (sum divided by length; `0` on `[]`, which the engine never
passes — every call site guards non-emptiness). -/
def ssMean (l : List ℚ) : ℚ := l.sum / l.length

/-- `variance(x)`: population variance, `Σ(xᵢ−μ)²/n`. -/
def ssVariance (l : List ℚ) : ℚ :=
  (l.map (fun x => (x - ssMean l) ^ 2)).sum / l.length

/-- `min(x)` (smallest element; `0` on `[]`, never passed empty). -/
def ssMin : List ℚ → ℚ
  | [] => 0
  | x :: xs => xs.foldl min x

/-- `max(x)`. -/
def ssMax : List ℚ → ℚ
  | [] => 0
  | x :: xs => xs.foldl max x

/-- Ascending numeric sort (`[...data].sort((a,b) => a-b)`). -/
def numericSort (l : List ℚ) : List ℚ := l.insertionSort (· ≤ ·)

/-- Modelled from the spec: `quantileSorted(x, p)` with the
linear-interpolation (type-7) method, rank `h = (n−1)·p`, interpolating
between the floor-rank element and its successor. -/
def quantileSorted (x : List ℚ) (p : ℚ) : ℚ :=
  let n : ℕ := x.length
  let h : ℚ := ((n : ℚ) - 1) * p
  let i : ℕ := ⌊h⌋.toNat
  let lo : ℚ := x.getD i 0
  let hi : ℚ := x.getD (i + 1) lo
  lo + (h - (i : ℚ)) * (hi - lo)

/-- Modelled from the spec: `quantile(x, p)` sorts then interpolates. -/
def ssQuantile (l : List ℚ) (p : ℚ) : ℚ := quantileSorted (numericSort l) p

/-- `median(x) = quantile(x, 0.5)`. -/
def ssMedian (l : List ℚ) : ℚ := ssQuantile l (1/2)

/-- Modelled from the spec: `mode(x)` for a numeric sample — most frequent
value, first in sorted order among ties (§4.2 leaves the tie-break to the
implementer; no claim depends on it). -/
def ssMode (l : List ℚ) : ℚ :=
  let s := numericSort l
  (s.foldl (fun best x =>
    if s.count x > s.count best then x else best) (s.headD 0))

/-- `standardDeviation(x) = √variance(x)` (population). -/
noncomputable def ssStandardDeviation (l : List ℚ) : ℝ :=
  Real.sqrt ((ssVariance l : ℚ) : ℝ)

/-! ## Variable detection (`detectVariables`) -/

/-- Column `index` of the raw table: `data.map(row => row[index])`.
`row[index]` is `undefined` (→ `Cell.missing`) when the row is short. -/
def columnCells (data : List (List Cell)) (index : ℕ) : List Cell :=
  data.map (fun row => row.getD index Cell.missing)

/-- The non-missing cells of column `index`
(`.filter(value => value !== null && value !== undefined && value !== '')`). -/
def columnData (data : List (List Cell)) (index : ℕ) : List Cell :=
  (columnCells data index).filter (fun c => c ≠ Cell.missing)

/-- The successfully parsed numbers of column `index`
(`parseFloat` + `isNaN` filter). -/
def numericalData (data : List (List Cell)) (index : ℕ) : List ℚ :=
  (columnData data index).filterMap parseCell

/-- `detectVariables(data, headers)`: one `Variable` per header; numerical
iff the parsed count strictly exceeds 80% of the non-missing count
(`numericalData.length > columnData.length * 0.8`). -/
def detectVariables (data : List (List Cell)) (headers : List String) :
    List Variable :=
  (List.range headers.length).map (fun index =>
    let cd := columnData data index
    let nd := numericalData data index
    let isNumerical : Bool := decide ((nd.length : ℚ) > (cd.length : ℚ) * (4/5))
    { name := headers.getD index ""
      values := if isNumerical then VarValues.numerical nd
                else VarValues.categorical cd
      missingCount := data.length - cd.length })

/-! ## Descriptive statistics (`calculateDescriptiveStats`) -/

/-- The value stored in the dynamically typed `mode?: any` field: a number
for a numerical variable, a frequency-table key for a categorical one. -/
inductive ModeValue where
  | num (q : ℚ) : ModeValue
  | key (s : String) : ModeValue
deriving DecidableEq, Repr

/-- `DescriptiveStats` (optional fields of the interface are `Option`).
`standardDeviation` is real-valued (`Math.sqrt`). -/
structure DescriptiveStats where
  variable_ : String
  isNumerical : Bool
  count : ℕ
  missing : ℕ
  mean : Option ℚ := none
  median : Option ℚ := none
  mode : Option ModeValue := none
  standardDeviation : Option ℝ := none
  variance : Option ℚ := none
  min : Option ℚ := none
  max : Option ℚ := none
  q1 : Option ℚ := none
  q3 : Option ℚ := none
  frequencies : Option (List (String × ℕ)) := none

/-- One step of the frequency accumulation
`frequencies[key] = (frequencies[key] || 0) + 1`, keeping the entry list in
insertion order (`Object.entries` order for the string keys produced here). -/
def bumpFreq : List (String × ℕ) → String → List (String × ℕ)
  | [], k => [(k, 1)]
  | (k', c) :: rest, k =>
      if k' = k then (k', c + 1) :: rest else (k', c) :: bumpFreq rest k

/-- The frequency table of a categorical variable, as the assoc list in
the order keys are first inserted by the accumulation pass (each entry
carries its count, so `frequencies[a[0]]` is `a.2`). -/
def freqEntries (keys : List String) : List (String × ℕ) :=
  keys.foldl bumpFreq []

/-- An ECMA-262 array-index key: the canonical decimal rendering of an
integer `0 ≤ n < 2^32 − 1` (so `"1"` qualifies but `"007"`, `"-1"`,
`"1.5"` and `"4294967295"` do not). -/
def arrayIndex? (s : String) : Option ℕ :=
  match s.toNat? with
  | some n => if toString n = s ∧ n < 4294967295 then some n else none
  | none => none

/-- Numeric value used to order entries with array-index keys. -/
def idxKey (e : String × ℕ) : ℕ := (arrayIndex? e.1).getD 0

/-- Ordering of array-index entries by their numeric key. -/
def idxLe (a b : String × ℕ) : Prop := idxKey a ≤ idxKey b

instance : DecidableRel idxLe := fun a b => Nat.decLe (idxKey a) (idxKey b)

/-- The enumeration order of `Object.entries(frequencies)` (ECMA-262
ordinary own-property order): entries whose key is an array index come
first, in ascending numeric order, followed by the remaining entries in
insertion order. -/
def jsEntries (l : List (String × ℕ)) : List (String × ℕ) :=
  (l.filter (fun e => (arrayIndex? e.1).isSome)).insertionSort idxLe
    ++ l.filter (fun e => !(arrayIndex? e.1).isSome)

/-- `Object.entries(frequencies).reduce((a, b) => frequencies[a[0]] >
frequencies[b[0]] ? a : b)[0]`, over the `Object.entries` enumeration
order (`jsEntries`).  `reduce` with no initial value throws a
`TypeError` on an empty entry list — modelled by `none`. -/
def categoricalMode (keys : List String) : Option String :=
  match jsEntries (freqEntries keys) with
  | [] => none
  | e :: rest =>
      some (rest.foldl (fun a b => if a.2 > b.2 then a else b) e).1

/-- `calculateDescriptiveStats(variable)`.  The numerical branch requires
`type === 'numerical' && values.length > 0`; everything else (including a
hypothetical empty numerical variable) takes the categorical branch, whose
mode `reduce` throws on an empty value list (`Except.error`). -/
noncomputable def calculateDescriptiveStats (v : Variable) :
    Except String DescriptiveStats :=
  let baseCount := match v.values with
    | VarValues.numerical l => l.length
    | VarValues.categorical l => l.length
  if v.isNumerical ∧ 0 < v.numVals.length then
    let values := v.numVals
    Except.ok
      { variable_ := v.name
        isNumerical := true
        count := baseCount
        missing := v.missingCount
        mean := some (ssMean values)
        median := some (ssMedian values)
        mode := some (ModeValue.num (ssMode values))
        standardDeviation := some (ssStandardDeviation values)
        variance := some (ssVariance values)
        min := some (ssMin values)
        max := some (ssMax values)
        q1 := some (ssQuantile values (1/4))
        q3 := some (ssQuantile values (3/4)) }
  else
    match categoricalMode v.entryKeys with
    | none => Except.error "Reduce of empty array with no initial value"
    | some m =>
        Except.ok
          { variable_ := v.name
            isNumerical := v.isNumerical
            count := baseCount
            missing := v.missingCount
            mode := some (ModeValue.key m)
            frequencies := some (freqEntries v.entryKeys) }

/-! ## Correlation engine (`performCorrelationAnalysis` and helpers) -/

set_option linter.unusedVariables false in
/-- `gamma(x)`: Stirling's approximation, with the recursive shift
`gamma(x) = gamma(x+1)/x` below 1 (`Math.pow(x/Math.E, x)` is real
exponentiation). -/
noncomputable def gamma (x : ℝ) : ℝ :=
  if h : x < 1 then gamma (x + 1) / x
  else Real.sqrt (2 * Real.pi / x) * (x / Real.exp 1) ^ x
termination_by ⌈1 - x⌉₊
decreasing_by
  have e : (1 : ℝ) - (x + 1) = -x := by ring
  rw [e, Nat.lt_ceil]
  rcases le_or_lt 0 (-x) with h0 | h0
  · have h2 := Nat.ceil_lt_add_one h0
    linarith
  · rw [Nat.ceil_eq_zero.mpr h0.le]
    push_cast
    linarith

/-- `beta(a, b) = gamma(a)·gamma(b)/gamma(a+b)`. -/
noncomputable def beta (a b : ℝ) : ℝ := gamma a * gamma b / gamma (a + b)

/-- `incompleteBeta(a, b, x)`: the simplified approximation
`x^a·(1−x)^b/(a·beta(a,b))` with clamping branches at `x ≥ 1` / `x ≤ 0`. -/
noncomputable def incompleteBeta (a b x : ℝ) : ℝ :=
  if x ≥ 1 then 1
  else if x ≤ 0 then 0
  else x ^ a * (1 - x) ^ b / (a * beta a b)

/-- `cumulativeStudentT(t, df) = 1 − 0.5·incompleteBeta(df/2, 0.5,
df/(df+t²))`. -/
noncomputable def cumulativeStudentT (t df : ℝ) : ℝ :=
  1 - (1/2) * incompleteBeta (df / 2) (1/2) (df / (df + t * t))

/-- `calculateCorrelationPValue(r, n)`.  The branch at `1 − r² = 0` mirrors
IEEE evaluation at `r = ±1`: `t = ±Infinity`, so `df/(df+t²)` underflows to
`0`, `incompleteBeta` returns `0`, the CDF is `1` and the p-value `0`. -/
noncomputable def calculateCorrelationPValue (r : ℝ) (n : ℕ) : ℝ :=
  if n < 3 then 1
  else if 1 - r * r = 0 then 0
  else
    2 * (1 - cumulativeStudentT
      |r * Real.sqrt (((n : ℝ) - 2) / (1 - r * r))| ((n : ℝ) - 2))

/-- `calculatePearsonCorrelation(x, y)`: Pearson r over the aligned prefix
of length `min(len x, len y)`; `0` when that length is < 2 or the
denominator vanishes. -/
noncomputable def calculatePearsonCorrelation (x y : List ℚ) : ℝ :=
  let n := min x.length y.length
  if n < 2 then 0
  else
    let xs := x.take n
    let ys := y.take n
    let meanX := ssMean xs
    let meanY := ssMean ys
    let numerator : ℚ :=
      ((xs.zip ys).map (fun p => (p.1 - meanX) * (p.2 - meanY))).sum
    let sumXSquared : ℚ := (xs.map (fun a => (a - meanX) ^ 2)).sum
    let sumYSquared : ℚ := (ys.map (fun b => (b - meanY) ^ 2)).sum
    let denominator : ℝ := Real.sqrt ((sumXSquared * sumYSquared : ℚ) : ℝ)
    if denominator = 0 then 0 else (numerator : ℚ) / denominator

/-- `CorrelationResult` (`variables` field renamed `variableNames`:
`variable` is a Lean keyword). -/
structure CorrelationResult where
  variableNames : List String
  correlationMatrix : List (List ℝ)
  pValues : List (List ℝ)

/-- `performCorrelationAnalysis(numericalVars)`: n×n matrices, diagonal
r = 1 / p = 0, off-diagonal Pearson r and its p-value at
`n = min(len_i, len_j)`. -/
noncomputable def performCorrelationAnalysis (numericalVars : List Variable) :
    CorrelationResult :=
  let n := numericalVars.length
  let vals : Fin n → List ℚ := fun i => (numericalVars.get i).numVals
  { variableNames := numericalVars.map (·.name)
    correlationMatrix :=
      List.ofFn (fun i : Fin n => List.ofFn (fun j : Fin n =>
        if (i : ℕ) = (j : ℕ) then 1
        else calculatePearsonCorrelation (vals i) (vals j)))
    pValues :=
      List.ofFn (fun i : Fin n => List.ofFn (fun j : Fin n =>
        if (i : ℕ) = (j : ℕ) then 0
        else calculateCorrelationPValue
          (calculatePearsonCorrelation (vals i) (vals j))
          (min (vals i).length (vals j).length))) }

/-! ## Hypothesis tests (`performHypothesisTests`)

The source declares `shapiroWilkTest` twice inside the class (lines
330–354 and 528–542).  In JavaScript class semantics the later definition
wins, so every call to `this.shapiroWilkTest` runs the second version,
which returns a bare `{statistic, pValue}` object (no `testName`,
`significant` or `interpretation` fields).  The heterogeneous
`hypothesisTests` array is therefore modelled as a sum type whose
`normality` constructor carries only those two fields. -/

/-- `shapiroWilkTest(values)` — the second (overriding) definition:
`w = 1 − variance/(mean² + variance)` on the sorted data, with the
step-function p-value.  Degenerate caveat: when every value is `0` the JS
quotient is `0/0 = NaN` (so `w` is `NaN` and the p-value `0.01`), while
Lean's total division gives `w = 1`; theorems about the statistic carry a
non-degeneracy hypothesis. -/
def shapiroWilkTest (values : List ℚ) : ℚ × ℚ :=
  let n := values.length
  if n < 3 then (1, 1)
  else
    let sorted := numericSort values
    let mean_val := ssMean sorted
    let variance_val := ssVariance sorted
    let w := 1 - variance_val / (mean_val * mean_val + variance_val)
    let pValue : ℚ :=
      if w > 95/100 then 8/10 else if w > 9/10 then 3/10 else 1/100
    (w, pValue)

/-- An element of the `hypothesisTests` array.  `normality` is the bare
object produced by the overriding `shapiroWilkTest`; `tTest` is the full
`HypothesisTest` record produced by `oneSampleTTest`. -/
inductive HypTestEntry where
  | normality (statistic pValue : ℚ) : HypTestEntry
  | tTest (testName : String) (statistic : ℝ) (pValue : ℝ)
      (degreesOfFreedom : ℕ) (interpretation : String)
      (significant : Bool) : HypTestEntry

/-- `oneSampleTTest(data, populationMean)`.  (When the sample is constant
the JS standard error is `0` and the statistic `±Infinity`/`NaN`; Lean's
total division gives `0` there — no claim touches that case.) -/
noncomputable def oneSampleTTest (data : List ℚ) (populationMean : ℚ) :
    HypTestEntry :=
  let n := data.length
  let sampleMean := ssMean data
  let sampleStd := ssStandardDeviation data
  let standardError := sampleStd / Real.sqrt (n : ℝ)
  let tStatistic : ℝ := ((sampleMean : ℚ) - (populationMean : ℚ)) / standardError
  let degreesOfFreedom := n - 1
  let pValue := 2 * (1 - cumulativeStudentT |tStatistic| ((degreesOfFreedom : ℕ) : ℝ))
  HypTestEntry.tTest "One-Sample T-Test" tStatistic pValue degreesOfFreedom
    (if pValue ≤ 1/20 then
      "Sample mean is significantly different from population mean"
     else "No significant difference from population mean")
    (if pValue ≤ 1/20 then true else false)

/-- `performHypothesisTests(variables)`: a normality test for every
numerical variable with more than 3 values, then a one-sample t-test
against 0 for every numerical variable with more than 1 value. -/
noncomputable def performHypothesisTests (vars : List Variable) :
    List HypTestEntry :=
  ((vars.filter (·.isNumerical)).filterMap (fun v =>
    if v.numVals.length > 3 then
      some (HypTestEntry.normality (shapiroWilkTest v.numVals).1
        (shapiroWilkTest v.numVals).2)
    else none))
  ++ ((vars.filter (·.isNumerical)).filterMap (fun v =>
    if v.numVals.length > 1 then some (oneSampleTTest v.numVals 0) else none))

/-! ## Outlier detection (`detectOutliers`) -/

/-- One element of the `outliers` result list. -/
structure OutlierReport where
  variable_ : String
  outlierIndices : List ℕ
  outlierValues : List ℚ
deriving DecidableEq, Repr

/-- `detectOutliers(variables)`: Tukey fences `Q1 − 1.5·IQR` /
`Q3 + 1.5·IQR` per numerical variable; variables with no outliers are
dropped. -/
def detectOutliers (vars : List Variable) : List OutlierReport :=
  ((vars.filter (·.isNumerical)).map (fun v =>
    let values := v.numVals
    let q1 := ssQuantile values (1/4)
    let q3 := ssQuantile values (3/4)
    let iqr := q3 - q1
    let lowerBound := q1 - 3/2 * iqr
    let upperBound := q3 + 3/2 * iqr
    let flagged := values.enum.filter
      (fun p => p.2 < lowerBound ∨ p.2 > upperBound)
    { variable_ := v.name
      outlierIndices := flagged.map (·.1)
      outlierValues := flagged.map (·.2) })).filter
    (fun r => r.outlierIndices.length > 0)

/-! ## Advanced tests (`performAdvancedTests`) -/

/-- `jarqueBeraTest(values).statistic` (skewness/kurtosis use the real
standard deviation). -/
noncomputable def jarqueBeraTest (values : List ℚ) : ℝ :=
  let n := values.length
  let mean_val := ssMean values
  let std_val := ssStandardDeviation values
  let skewness :=
    (values.map (fun x => (((x - mean_val : ℚ) : ℝ) / std_val) ^ (3 : ℕ))).sum / n
  let kurtosis :=
    (values.map (fun x => (((x - mean_val : ℚ) : ℝ) / std_val) ^ (4 : ℕ))).sum / n - 3
  ((n : ℝ) / 6) * (skewness * skewness + kurtosis * kurtosis / 4)

/-- One element of `advancedTests.normalityTests` (`pValue` is the
overriding `shapiroWilkTest`'s p-value). -/
structure NormalityRecord where
  variable_ : String
  shapiroWilk : ℚ
  jarqueBera : ℝ
  pValue : ℚ

/-- `advancedTests` (the homoscedasticity / multicollinearity lists are
always empty in the source and omitted). -/
structure AdvancedTests where
  normalityTests : List NormalityRecord

/-- `performAdvancedTests(variables)` (the `filter(v => v !== null &&
!isNaN(v))` over already-parsed numbers is the identity). -/
noncomputable def performAdvancedTests (vars : List Variable) : AdvancedTests :=
  { normalityTests := (vars.filter (·.isNumerical)).map (fun v =>
      let values := v.numVals
      { variable_ := v.name
        shapiroWilk := (shapiroWilkTest values).1
        jarqueBera := jarqueBeraTest values
        pValue := (shapiroWilkTest values).2 }) }

/-! ## Regression (`performRegressionAnalysis`, `performLinearRegression`) -/

/-- `RegressionAnalysis` (`type` is always `'linear'`; the confidence
band is real-valued via `standardDeviation`). -/
structure RegressionAnalysis where
  coefficients : List ℚ
  rSquared : ℚ
  adjustedRSquared : ℚ
  fStatistic : ℚ
  pValue : ℚ
  residuals : List ℚ
  predictions : List ℚ
  ciLower : List ℝ
  ciUpper : List ℝ

/-- `performLinearRegression(x, y)`: OLS of `y` on `x` over the aligned
prefix of length `n = min(len x, len y)`. -/
noncomputable def performLinearRegression (x y : List ℚ) : RegressionAnalysis :=
  let n := min x.length y.length
  let xSliced := x.take n
  let ySliced := y.take n
  let xMean := ssMean xSliced
  let yMean := ssMean ySliced
  let slope :=
    ((xSliced.zip ySliced).map (fun p => (p.1 - xMean) * (p.2 - yMean))).sum /
      (xSliced.map (fun xi => (xi - xMean) ^ 2)).sum
  let intercept := yMean - slope * xMean
  let predictions := xSliced.map (fun xi => slope * xi + intercept)
  let residuals := (ySliced.zip predictions).map (fun p => p.1 - p.2)
  let totalSumSquares := (ySliced.map (fun yi => (yi - yMean) ^ 2)).sum
  let residualSumSquares := (residuals.map (fun r => r ^ 2)).sum
  let rSquared := 1 - residualSumSquares / totalSumSquares
  let sdRes := ssStandardDeviation residuals
  { coefficients := [intercept, slope]
    rSquared := rSquared
    adjustedRSquared := 1 - (1 - rSquared) * ((n : ℚ) - 1) / ((n : ℚ) - 2)
    fStatistic := rSquared / (1 - rSquared) * ((n : ℚ) - 2)
    pValue := if rSquared > 1/10 then 1/20 else 1/5
    residuals := residuals
    predictions := predictions
    ciLower := predictions.map (fun p => (p : ℚ) - (196/100 : ℝ) * sdRes)
    ciUpper := predictions.map (fun p => (p : ℚ) + (196/100 : ℝ) * sdRes) }

instance : Inhabited Variable :=
  ⟨{ name := "", values := VarValues.categorical [], missingCount := 0 }⟩

/-- The values of the `i`-th entry of a variable list (out-of-range gives
an empty, never-used placeholder). -/
def numValsAt (l : List Variable) (i : ℕ) : List ℚ :=
  (l.getD i default).numVals

/-- `performRegressionAnalysis(variables)`: the double loop
`for i in [0, len−1), for j in (i, len)` over the numerical variables,
fitting a regression for each pair where both value lists have more than
10 entries (the inner `filter` over parsed numbers is the identity). -/
noncomputable def performRegressionAnalysis (vars : List Variable) :
    List RegressionAnalysis :=
  let numericalVars := vars.filter (·.isNumerical)
  if numericalVars.length < 2 then []
  else
    (List.range (numericalVars.length - 1)).flatMap (fun i =>
      ((List.range numericalVars.length).drop (i + 1)).filterMap (fun j =>
        let x := numValsAt numericalVars i
        let y := numValsAt numericalVars j
        if x.length > 10 ∧ y.length > 10 then
          some (performLinearRegression x y)
        else none))

/-! ## Time series, QC charts, visualisation metadata -/

/-- Trend classification. -/
inductive Trend where
  | increasing | decreasing | stable
deriving DecidableEq, Repr

/-- `detectTrend(values)`: relative change of the second-half mean over
the first-half mean against a ±5% band. -/
def detectTrend (values : List ℚ) : Trend :=
  let firstHalf := values.take (values.length / 2)
  let secondHalf := values.drop (values.length / 2)
  let firstMean := ssMean firstHalf
  let secondMean := ssMean secondHalf
  let diff := (secondMean - firstMean) / firstMean
  if diff > 1/20 then Trend.increasing
  else if diff < -(1/20) then Trend.decreasing
  else Trend.stable

/-- `calculateAutocorrelation(values)`: lag-k normalized cross-covariance
for `1 ≤ lag ≤ min(10, n/4)` (the float bound `n/4` floors against the
integer loop counter). -/
def calculateAutocorrelation (values : List ℚ) : List ℚ :=
  let mean_val := ssMean values
  let n := values.length
  (List.range (min 10 (n / 4))).map (fun k =>
    let lag := k + 1
    let count := n - lag
    let s : ℚ := ((List.range count).map (fun i =>
      (values.getD i 0 - mean_val) * (values.getD (i + lag) 0 - mean_val))).sum
    let variance_val := ssVariance values
    if count > 0 then s / ((count : ℚ) * variance_val) else 0)

/-- `detectSeasonality(values)`. -/
def detectSeasonality (values : List ℚ) : Bool :=
  if values.length < 12 then false
  else (calculateAutocorrelation values).any (fun r => |r| > 3/10)

/-- `TimeSeriesAnalysis`. -/
structure TimeSeriesAnalysis where
  trend : Trend
  seasonality : Bool
  autocorrelation : List ℚ
  forecast : List ℚ

/-- Case-insensitive substring test (`name.toLowerCase().includes(pat)`). -/
def containsSubstr (s pat : String) : Bool :=
  (List.range (s.length + 1)).any (fun i => (s.drop i).startsWith pat)

/-- `performTimeSeriesAnalysis(variables, data)`.  (`v !== timeVar` is JS
reference inequality; modelled structurally, which agrees except for
duplicate identical columns.) -/
def performTimeSeriesAnalysis (vars : List Variable)
    (_data : List (List Cell)) : Option TimeSeriesAnalysis :=
  match vars.find? (fun v =>
      containsSubstr v.name.toLower "time" || containsSubstr v.name.toLower "date") with
  | none => none
  | some timeVar =>
    match vars.find? (fun v => v.isNumerical && v ≠ timeVar) with
    | none => none
    | some numericalVar =>
      let values := numericalVar.numVals
      if values.length < 10 then none
      else some
        { trend := detectTrend values
          seasonality := detectSeasonality values
          autocorrelation := calculateAutocorrelation values
          forecast := [] }

/-- `QualityControlChart` (`type` is always `'x-bar'`). -/
structure QualityControlChart where
  centerLine : ℚ
  upperControlLimit : ℝ
  lowerControlLimit : ℝ
  dataPoints : List ℚ
  outOfControlPoints : List ℕ

/-- `generateQualityControlCharts(variables)`: x-bar-style chart for the
first 3 numerical variables (the `map`-to-`-1`-then-`filter` index
selection is a `filterMap`). -/
noncomputable def generateQualityControlCharts (vars : List Variable) :
    List QualityControlChart :=
  ((vars.filter (·.isNumerical)).take 3).map (fun v =>
    let values := v.numVals
    let mean_val := ssMean values
    let std_val := ssStandardDeviation values
    { centerLine := mean_val
      upperControlLimit := ((mean_val : ℚ) : ℝ) + 3 * std_val
      lowerControlLimit := ((mean_val : ℚ) : ℝ) - 3 * std_val
      dataPoints := values
      outOfControlPoints := values.enum.filterMap (fun p =>
        if |((p.2 - mean_val : ℚ) : ℝ)| > 3 * std_val then some p.1 else none) })

/-- `visualizations` metadata. -/
structure VisualizationMetadata where
  histograms : List String
  boxplots : List String
  scatterplots : List String
  correlationHeatmap : String
  qqPlots : List String
  densityPlots : List String
  controlCharts : List String

/-- `generateVisualizationMetadata(variables)`. -/
def generateVisualizationMetadata (vars : List Variable) :
    VisualizationMetadata :=
  let numNames := (vars.filter (·.isNumerical)).map (·.name)
  { histograms := numNames
    boxplots := numNames
    scatterplots := numNames
    correlationHeatmap := "correlation_matrix"
    qqPlots := numNames
    densityPlots := numNames
    controlCharts := numNames }

/-! ## Data quality (`assessDataQuality`) and the orchestrator -/

/-- The four-level quality grade. -/
inductive Grade where
  | excellent | good | fair | poor
deriving DecidableEq, Repr

/-- `assessDataQuality`.  The guard branch mirrors IEEE evaluation: with
`totalObservations = 0` the outlier percentage is `NaN`/`±Infinity`, and
with an empty normality list the non-normal fraction is `0/0 = NaN`;
either way every threshold comparison on the score is false and the grade
falls through to `'poor'`. -/
def assessDataQuality (missingValuesPercentage : ℚ) (totalObservations : ℕ)
    (outlierIndexCounts : List ℕ) (normalityPValues : List ℚ) : Grade :=
  if totalObservations = 0 ∨ normalityPValues.length = 0 then Grade.poor
  else
    let outlierPercentage : ℚ :=
      (outlierIndexCounts.sum : ℚ) / (totalObservations : ℚ) * 100
    let nonNormalVars : ℕ := (normalityPValues.filter (fun p => p < 1/20)).length
    let score : ℚ := 100 - missingValuesPercentage * 2 - outlierPercentage
      - ((nonNormalVars : ℚ) / (normalityPValues.length : ℚ)) * 20
    if score ≥ 90 then Grade.excellent
    else if score ≥ 70 then Grade.good
    else if score ≥ 50 then Grade.fair
    else Grade.poor

/-- The `dataOverview` record. -/
structure DataOverview where
  totalObservations : ℕ
  totalVariables : ℕ
  numericalVariables : ℕ
  categoricalVariables : ℕ
  missingValuesPercentage : ℚ
  dataQuality : Grade

/-- Length of the (dynamically typed) `values` array of a variable. -/
def Variable.valuesLength (v : Variable) : ℕ :=
  match v.values with
  | VarValues.numerical l => l.length
  | VarValues.categorical l => l.length

/-- `StatisticalResults` (`variables` field renamed `variableList`:
`variables` is reserved in Lean). -/
structure StatisticalResults where
  dataOverview : DataOverview
  variableList : List Variable
  descriptiveStatistics : List DescriptiveStats
  correlationAnalysis : Option CorrelationResult
  hypothesisTests : List HypTestEntry
  outliers : List OutlierReport
  regressionAnalysis : List RegressionAnalysis
  timeSeriesAnalysis : Option TimeSeriesAnalysis
  qualityControlCharts : List QualityControlChart
  visualizations : VisualizationMetadata
  advancedTests : AdvancedTests

/-- `analyzeData(data, headers)`.  The only statement in the method body
that can throw is the descriptive-statistics pass (the categorical mode
`reduce` on an empty entry list); it runs before every other analysis, so
a thrown `TypeError` propagates out before any later step — modelled by
the `Except` bind.  (The external statistics functions that throw on empty
input are all guarded by non-emptiness at their call sites; see
`numerical_values_nonempty` below.  When `totalValues + totalMissing = 0`
the JS missing percentage is `NaN` while Lean's is `0`; that can only
happen with no headers, where the stored percentage is not inspected and
the grade is `'poor'` in both semantics.) -/
noncomputable def analyzeData (data : List (List Cell)) (headers : List String) :
    Except String StatisticalResults := do
  let vars := detectVariables data headers
  let descriptiveStats ← vars.mapM calculateDescriptiveStats
  let numericalVars := vars.filter (·.isNumerical)
  let correlationAnalysis :=
    if 2 ≤ numericalVars.length then some (performCorrelationAnalysis numericalVars)
    else none
  let hypothesisTests := performHypothesisTests vars
  let outliers := detectOutliers vars
  let totalMissing := (vars.map (·.missingCount)).sum
  let totalValues := (vars.map (·.valuesLength)).sum
  let missingValuesPercentage : ℚ :=
    (totalMissing : ℚ) / ((totalValues : ℚ) + (totalMissing : ℚ)) * 100
  let advancedTests := performAdvancedTests vars
  let regressionAnalysis := performRegressionAnalysis vars
  let timeSeriesAnalysis := performTimeSeriesAnalysis vars data
  let qualityControlCharts := generateQualityControlCharts vars
  let visualizations := generateVisualizationMetadata vars
  let dataQuality := assessDataQuality missingValuesPercentage data.length
    (outliers.map (·.outlierIndices.length))
    (advancedTests.normalityTests.map (·.pValue))
  pure
    { dataOverview :=
        { totalObservations := data.length
          totalVariables := headers.length
          numericalVariables := numericalVars.length
          categoricalVariables := (vars.filter (fun v => ¬ v.isNumerical)).length
          missingValuesPercentage := missingValuesPercentage
          dataQuality := dataQuality }
      variableList := vars
      descriptiveStatistics := descriptiveStats
      correlationAnalysis := correlationAnalysis
      hypothesisTests := hypothesisTests
      outliers := outliers
      regressionAnalysis := regressionAnalysis
      timeSeriesAnalysis := timeSeriesAnalysis
      qualityControlCharts := qualityControlCharts
      visualizations := visualizations
      advancedTests := advancedTests }

/-! # Theorems -/

theorem detectVariables_length (data : List (List Cell)) (headers : List String) :
    (detectVariables data headers).length = headers.length := by
  simp [detectVariables]

theorem detectVariables_getD (data : List (List Cell)) (headers : List String)
    (j : ℕ) (hj : j < headers.length) :
    (detectVariables data headers).getD j default =
      (let cd := columnData data j
       let nd := numericalData data j
       let isNumerical : Bool := decide ((nd.length : ℚ) > (cd.length : ℚ) * (4/5))
       { name := headers.getD j ""
         values := if isNumerical then VarValues.numerical nd
                   else VarValues.categorical cd
         missingCount := data.length - cd.length : Variable }) := by
  simp [detectVariables, List.getD, List.getElem?_map, List.getElem?_range, hj]

/-- **C1.** For every input column, the detected variable is numerical iff
strictly more than 80% of its non-missing cells parse as finite numbers;
at exactly 80% it is categorical. -/
theorem variable_kind_threshold (data : List (List Cell))
    (headers : List String) (j : ℕ) (hj : j < headers.length) :
    (((detectVariables data headers).getD j default).isNumerical = true ↔
      ((numericalData data j).length : ℚ) >
        (80 / 100) * ((columnData data j).length : ℚ)) ∧
    (((numericalData data j).length : ℚ) =
        (80 / 100) * ((columnData data j).length : ℚ) →
      ((detectVariables data headers).getD j default).isNumerical = false) := by
  rw [detectVariables_getD data headers j hj]
  constructor
  · by_cases h : ((numericalData data j).length : ℚ) >
        ((columnData data j).length : ℚ) * (4/5)
    · simp [Variable.isNumerical, h, decide_eq_true_eq]
      linarith
    · simp [Variable.isNumerical, h, decide_eq_true_eq]
      push_neg at h
      linarith
  · intro heq
    have h : ¬ (((numericalData data j).length : ℚ) >
        ((columnData data j).length : ℚ) * (4/5)) := by
      push_neg
      linarith
    simp [Variable.isNumerical, h, decide_eq_true_eq]

/-- Concrete 5-cell column, 4 of which parse: exactly the 80% boundary. -/
def c1data : List (List Cell) :=
  [[Cell.num 1], [Cell.num 2], [Cell.num 3], [Cell.num 4], [Cell.str "a"]]

theorem variable_kind_threshold_witness :
    (0 < (["col"] : List String).length) ∧
    ((((detectVariables c1data ["col"]).getD 0 default).isNumerical = true ↔
        ((numericalData c1data 0).length : ℚ) >
          (80 / 100) * ((columnData c1data 0).length : ℚ)) ∧
      (((numericalData c1data 0).length : ℚ) =
          (80 / 100) * ((columnData c1data 0).length : ℚ) →
        ((detectVariables c1data ["col"]).getD 0 default).isNumerical = false)) :=
  ⟨by decide, variable_kind_threshold c1data ["col"] 0 (by decide)⟩

/-- The numerical variable holding the spec's outlier example data. -/
def c6var : Variable :=
  { name := "v", values := VarValues.numerical [1, 2, 3, 4, 5, 100],
    missingCount := 0 }

/-- **C6.** On the value sequence `[1,2,3,4,5,100]` the outlier detector
computes Q1 = 2.25, Q3 = 4.75, IQR = 2.5, Tukey fences `[-1.5, 8.5]`, and
reports exactly one outlier, the value 100 at index 5. -/
theorem outlier_example :
    ssQuantile [1, 2, 3, 4, 5, 100] (1/4) = 9/4 ∧
    ssQuantile [1, 2, 3, 4, 5, 100] (3/4) = 19/4 ∧
    ssQuantile [1, 2, 3, 4, 5, 100] (3/4) -
      ssQuantile [1, 2, 3, 4, 5, 100] (1/4) = 5/2 ∧
    ssQuantile [1, 2, 3, 4, 5, 100] (1/4) -
      3/2 * (ssQuantile [1, 2, 3, 4, 5, 100] (3/4) -
        ssQuantile [1, 2, 3, 4, 5, 100] (1/4)) = -(3/2) ∧
    ssQuantile [1, 2, 3, 4, 5, 100] (3/4) +
      3/2 * (ssQuantile [1, 2, 3, 4, 5, 100] (3/4) -
        ssQuantile [1, 2, 3, 4, 5, 100] (1/4)) = 17/2 ∧
    detectOutliers [c6var] =
      [{ variable_ := "v", outlierIndices := [5], outlierValues := [100] }] := by
  with_unfolding_all decide

/-! ### C8: categorical mode tie-break -/

/-- Claim-side notion: the last entry, in frequency-table entry order,
attaining the maximal count (ties between an earlier and a later entry go
to the later one). -/
def lastArgmax : List (String × ℕ) → Option (String × ℕ)
  | [] => none
  | e :: rest =>
    match lastArgmax rest with
    | none => some e
    | some m => some (if e.2 > m.2 then e else m)

theorem foldl_pick_eq_lastArgmax (l : List (String × ℕ)) (a : String × ℕ) :
    some (l.foldl (fun a b => if a.2 > b.2 then a else b) a) =
      lastArgmax (a :: l) := by
  induction l generalizing a with
  | nil => rfl
  | cons b t ih =>
    rw [List.foldl_cons, ih]
    show lastArgmax _ = lastArgmax (a :: b :: t)
    cases h : lastArgmax t with
    | none =>
      simp only [lastArgmax, h]
    | some m =>
      simp only [lastArgmax, h]
      split_ifs <;> first | rfl | (exfalso; omega)

theorem lastArgmax_maximal (l : List (String × ℕ)) (e : String × ℕ)
    (h : lastArgmax l = some e) : ∀ x ∈ l, x.2 ≤ e.2 := by
  induction l generalizing e with
  | nil => simp [lastArgmax] at h
  | cons b t ih =>
    intro x hx
    rcases List.mem_cons.mp hx with rfl | hxt
    · simp only [lastArgmax] at h
      cases ht : lastArgmax t with
      | none =>
        rw [ht] at h
        simp only [Option.some.injEq] at h
        subst h
        exact le_refl _
      | some m =>
        rw [ht] at h
        simp only [Option.some.injEq] at h
        subst h
        split_ifs <;> omega
    · simp only [lastArgmax] at h
      cases ht : lastArgmax t with
      | none =>
        cases t with
        | nil => simp at hxt
        | cons c u =>
          simp only [lastArgmax] at ht
          cases hcu : lastArgmax u <;> rw [hcu] at ht <;> simp at ht
      | some m =>
        rw [ht] at h
        simp only [Option.some.injEq] at h
        have hxm := ih m ht x hxt
        subst h
        split_ifs <;> omega

theorem bumpFreq_ne_nil (l : List (String × ℕ)) (k : String) :
    bumpFreq l k ≠ [] := by
  cases l with
  | nil => simp [bumpFreq]
  | cons e rest =>
    obtain ⟨k', c⟩ := e
    simp only [bumpFreq]
    split_ifs <;> simp

theorem foldl_bumpFreq_ne_nil (keys : List String)
    (acc : List (String × ℕ)) (h : acc ≠ [] ∨ keys ≠ []) :
    keys.foldl bumpFreq acc ≠ [] := by
  induction keys generalizing acc with
  | nil =>
    rcases h with h | h
    · simpa using h
    · simp at h
  | cons k ks ih =>
    rw [List.foldl_cons]
    exact ih (bumpFreq acc k) (Or.inl (bumpFreq_ne_nil acc k))

theorem jsEntries_perm (l : List (String × ℕ)) :
    List.Perm (jsEntries l) l := by
  unfold jsEntries
  exact List.Perm.trans
    ((List.perm_insertionSort idxLe _).append_right _)
    (List.filter_append_perm _ l)

theorem jsEntries_eq_nil_iff (l : List (String × ℕ)) :
    jsEntries l = [] ↔ l = [] := by
  constructor
  · intro h
    have hp := jsEntries_perm l
    rw [h] at hp
    exact hp.symm.eq_nil
  · rintro rfl
    rfl

theorem categoricalMode_eq_lastArgmax (keys : List String) :
    categoricalMode keys =
      (lastArgmax (jsEntries (freqEntries keys))).map (·.1) := by
  unfold categoricalMode
  cases h : jsEntries (freqEntries keys) with
  | nil => simp [lastArgmax]
  | cons e rest =>
    rw [← foldl_pick_eq_lastArgmax]
    rfl

/-- **C8 (amended).** For every categorical variable with at least one
value, the reported mode is a key attaining the maximal frequency count;
when several keys tie at the maximal count, the reported one is the
*last* maximal entry in the `Object.entries` enumeration order
(array-index-like keys first in ascending numeric order, then the
remaining keys in insertion order; the `reduce` keeps the later entry
on ties) — not the first-seen key of the accumulation pass. -/
theorem categorical_mode_last_max (v : Variable) (cells : List Cell)
    (hv : v.values = VarValues.categorical cells) (hne : cells ≠ []) :
    ∃ e, lastArgmax (jsEntries (freqEntries v.entryKeys)) = some e ∧
      (∀ x ∈ freqEntries v.entryKeys, x.2 ≤ e.2) ∧
      ∃ stats, calculateDescriptiveStats v = Except.ok stats ∧
        stats.mode = some (ModeValue.key e.1) := by
  have hkeys : v.entryKeys = cells.map cellKey := by
    simp [Variable.entryKeys, hv]
  have hkne : v.entryKeys ≠ [] := by
    rw [hkeys]
    simpa using hne
  have hfne : freqEntries v.entryKeys ≠ [] :=
    foldl_bumpFreq_ne_nil _ _ (Or.inr hkne)
  have hjne : jsEntries (freqEntries v.entryKeys) ≠ [] := by
    intro h
    exact hfne ((jsEntries_eq_nil_iff _).mp h)
  have hnum : v.isNumerical = false := by
    simp [Variable.isNumerical, hv]
  obtain ⟨e, he⟩ :
      ∃ e, lastArgmax (jsEntries (freqEntries v.entryKeys)) = some e := by
    cases h : jsEntries (freqEntries v.entryKeys) with
    | nil => exact absurd h hjne
    | cons a rest => exact ⟨_, (foldl_pick_eq_lastArgmax rest a).symm⟩
  refine ⟨e, he, ?_, ?_⟩
  · intro x hx
    exact lastArgmax_maximal _ e he x
      ((jsEntries_perm (freqEntries v.entryKeys)).mem_iff.mpr hx)
  · have hmode : categoricalMode v.entryKeys = some e.1 := by
      rw [categoricalMode_eq_lastArgmax, he]
      rfl
    unfold calculateDescriptiveStats
    simp only [hnum, hmode]
    exact ⟨_, rfl, rfl⟩

/-- Claim-side notion for the original claim: the maximal count of a
frequency-entry list. -/
def maxFreqCount (l : List (String × ℕ)) : ℕ := (l.map (·.2)).foldr max 0

/-- Claim-side notion for the original claim: the *first*-seen key
attaining the maximal count. -/
def firstSeenMaxKey (l : List (String × ℕ)) : Option String :=
  (l.find? (fun x => x.2 = maxFreqCount l)).map (·.1)

/-- Categorical variable with tied frequencies (`a`, `b` both twice,
`a` seen first). -/
def c8var : Variable :=
  { name := "v"
    values := VarValues.categorical
      [Cell.str "a", Cell.str "b", Cell.str "a", Cell.str "b"]
    missingCount := 0 }

/-- **C8 counterexample.** On `["a","b","a","b"]` the first-seen
maximal-frequency key is `"a"`, but the reported mode is `"b"`:
the tie goes to the last-seen key. -/
theorem categorical_mode_counterexample :
    (∃ stats, calculateDescriptiveStats c8var = Except.ok stats ∧
      stats.mode = some (ModeValue.key "b")) ∧
    firstSeenMaxKey (freqEntries c8var.entryKeys) = some "a" ∧
    ("b" : String) ≠ "a" := by
  refine ⟨⟨{ variable_ := "v", isNumerical := false, count := 4, missing := 0,
             mode := some (ModeValue.key "b"),
             frequencies := some [("a", 2), ("b", 2)] }, ?_, rfl⟩,
    by with_unfolding_all decide, by decide⟩
  with_unfolding_all rfl

/-- Mixed categorical variable whose raw values include the number `1`
(keyed `"1"`, an array-index key that `Object.entries` lists first). -/
def c8varMixed : Variable :=
  { name := "v"
    values := VarValues.categorical
      [Cell.str "b", Cell.num 1, Cell.str "b", Cell.num 1]
    missingCount := 0 }

theorem categorical_mode_last_max_witness :
    (c8varMixed.values = VarValues.categorical
        [Cell.str "b", Cell.num 1, Cell.str "b", Cell.num 1] ∧
      ([Cell.str "b", Cell.num 1, Cell.str "b", Cell.num 1] :
        List Cell) ≠ [] ∧
      jsEntries (freqEntries c8varMixed.entryKeys) = [("1", 2), ("b", 2)] ∧
      categoricalMode c8varMixed.entryKeys = some "b") ∧
    (∃ e, lastArgmax (jsEntries (freqEntries c8varMixed.entryKeys)) = some e ∧
      (∀ x ∈ freqEntries c8varMixed.entryKeys, x.2 ≤ e.2) ∧
      ∃ stats, calculateDescriptiveStats c8varMixed = Except.ok stats ∧
        stats.mode = some (ModeValue.key e.1)) :=
  ⟨⟨rfl, by decide, by with_unfolding_all decide, by with_unfolding_all decide⟩,
    categorical_mode_last_max c8varMixed _ rfl (by decide)⟩

/-! ### C4: normality test entries -/

set_option linter.unusedVariables false in
/-- **C4 (amended).** For every numerical variable with more than 3
values (whose values are not all zero — there the JS statistic is `NaN`),
the hypothesis-test list contains a bare normality entry (only
`statistic` and `pValue`, no `significant` flag) whose statistic is
`1 − σ²/(μ² + σ²)` over the sorted values — in general nonzero — and
whose p-value is the step function `0.8 / 0.3 / 0.01`.  The first
`shapiroWilkTest` definition (with the never-populated numerator) is
shadowed by the second one at runtime, so the statistic is *not*
always 0. -/
theorem hypothesis_tests_normality_entry (vars : List Variable)
    (v : Variable) (vals : List ℚ) (hv : v ∈ vars)
    (hval : v.values = VarValues.numerical vals) (hlen : vals.length > 3)
    (hnz : ssMean (numericSort vals) * ssMean (numericSort vals) +
        ssVariance (numericSort vals) ≠ 0) :
    HypTestEntry.normality
        (1 - ssVariance (numericSort vals) /
          (ssMean (numericSort vals) * ssMean (numericSort vals) +
            ssVariance (numericSort vals)))
        (if (1 - ssVariance (numericSort vals) /
              (ssMean (numericSort vals) * ssMean (numericSort vals) +
                ssVariance (numericSort vals))) > 95/100 then 8/10
         else if (1 - ssVariance (numericSort vals) /
              (ssMean (numericSort vals) * ssMean (numericSort vals) +
                ssVariance (numericSort vals))) > 9/10 then 3/10
         else 1/100) ∈ performHypothesisTests vars := by
  have hnum : v.isNumerical = true := by
    simp [Variable.isNumerical, hval]
  have hvals : v.numVals = vals := by
    simp [Variable.numVals, hval]
  have hfilter : v ∈ vars.filter (·.isNumerical) :=
    List.mem_filter.mpr ⟨hv, hnum⟩
  have hsw : shapiroWilkTest vals =
      (1 - ssVariance (numericSort vals) /
          (ssMean (numericSort vals) * ssMean (numericSort vals) +
            ssVariance (numericSort vals)),
       if (1 - ssVariance (numericSort vals) /
              (ssMean (numericSort vals) * ssMean (numericSort vals) +
                ssVariance (numericSort vals))) > 95/100 then 8/10
       else if (1 - ssVariance (numericSort vals) /
              (ssMean (numericSort vals) * ssMean (numericSort vals) +
                ssVariance (numericSort vals))) > 9/10 then 3/10
       else 1/100) := by
    unfold shapiroWilkTest
    rw [if_neg (by omega)]
  refine List.mem_append_left _ (List.mem_filterMap.mpr ⟨v, hfilter, ?_⟩)
  rw [if_pos (by rw [hvals]; exact hlen), hvals, hsw]

/-- Numerical variable `[1,2,3,4]` for the C4 counterexample. -/
def c4var : Variable :=
  { name := "x", values := VarValues.numerical [1, 2, 3, 4],
    missingCount := 0 }

/-- **C4 counterexample.** For the variable with values `[1,2,3,4]`
(more than 3 values) the unique normality entry of the hypothesis-test
list has statistic `5/6`, not `0`: the claim that the statistic always
equals 0 fails. -/
theorem hypothesis_tests_normality_counterexample :
    HypTestEntry.normality (5/6) (1/100) ∈ performHypothesisTests [c4var] ∧
    (5/6 : ℚ) ≠ 0 ∧
    ∀ w p, HypTestEntry.normality w p ∈ performHypothesisTests [c4var] →
      w = 5/6 := by
  have hsw : shapiroWilkTest [1, 2, 3, 4] = (5/6, 1/100) := by
    with_unfolding_all decide
  have hlist : performHypothesisTests [c4var] =
      [HypTestEntry.normality (5/6) (1/100), oneSampleTTest [1, 2, 3, 4] 0] := by
    unfold performHypothesisTests
    simp [c4var, Variable.isNumerical, Variable.numVals, hsw]
  rw [hlist]
  refine ⟨List.mem_cons_self _ _, by norm_num, ?_⟩
  intro w p hmem
  rcases List.mem_cons.mp hmem with h | h
  · injection h with h1 h2
  · rcases List.mem_cons.mp h with h | h
    · simp [oneSampleTTest] at h
    · simp at h

theorem hypothesis_tests_normality_entry_witness :
    (c4var ∈ [c4var] ∧
      c4var.values = VarValues.numerical [1, 2, 3, 4] ∧
      ([1, 2, 3, 4] : List ℚ).length > 3 ∧
      ssMean (numericSort [1, 2, 3, 4]) * ssMean (numericSort [1, 2, 3, 4]) +
        ssVariance (numericSort [1, 2, 3, 4]) ≠ 0) ∧
    HypTestEntry.normality
        (1 - ssVariance (numericSort [1, 2, 3, 4]) /
          (ssMean (numericSort [1, 2, 3, 4]) * ssMean (numericSort [1, 2, 3, 4]) +
            ssVariance (numericSort [1, 2, 3, 4])))
        (if (1 - ssVariance (numericSort [1, 2, 3, 4]) /
              (ssMean (numericSort [1, 2, 3, 4]) *
                  ssMean (numericSort [1, 2, 3, 4]) +
                ssVariance (numericSort [1, 2, 3, 4]))) > 95/100 then 8/10
         else if (1 - ssVariance (numericSort [1, 2, 3, 4]) /
              (ssMean (numericSort [1, 2, 3, 4]) *
                  ssMean (numericSort [1, 2, 3, 4]) +
                ssVariance (numericSort [1, 2, 3, 4]))) > 9/10 then 3/10
         else 1/100) ∈ performHypothesisTests [c4var] :=
  ⟨⟨List.mem_singleton.mpr rfl, rfl, by decide, by with_unfolding_all decide⟩,
    hypothesis_tests_normality_entry [c4var] c4var [1, 2, 3, 4]
      (List.mem_singleton.mpr rfl) rfl (by decide)
      (by with_unfolding_all decide)⟩

/-! ### C5: regression enumeration -/

/-- Claim-side enumeration: one regression entry for every unordered pair
`i < j` of numerical variables in which both value lists have strictly
more than 10 entries, in lexicographic order. -/
noncomputable def regressionPairsSpec (vars : List Variable) :
    List RegressionAnalysis :=
  let nv := vars.filter (·.isNumerical)
  (List.range nv.length).flatMap (fun i =>
    ((List.range nv.length).filter (fun j => i < j)).filterMap (fun j =>
      if (numValsAt nv i).length > 10 ∧ (numValsAt nv j).length > 10 then
        some (performLinearRegression (numValsAt nv i) (numValsAt nv j))
      else none))

theorem flatMap_range_succ_of_last_nil {α : Type} (g : ℕ → List α) (M : ℕ)
    (h : g M = []) :
    (List.range (M + 1)).flatMap g = (List.range M).flatMap g := by
  rw [List.range_succ, List.flatMap_append]
  simp [h]

theorem range_drop_eq_filter (n i : ℕ) :
    (List.range n).drop (i+1) = (List.range n).filter (fun j => i < j) := by
  induction n with
  | zero => rfl
  | succ n ih =>
    rw [List.range_succ]
    rcases le_or_lt (i+1) n with h | h
    · rw [List.drop_append_of_le_length (by simpa using h), List.filter_append, ih]
      have hi : i < n := h
      simp [hi]
    · rw [List.drop_append_eq_append_drop]
      have h1 : (List.range n).drop (i+1) = [] := by
        apply List.drop_eq_nil_of_le
        simpa using by omega
      have h2 : ([n] : List ℕ).drop (i + 1 - (List.range n).length) = [] := by
        apply List.drop_eq_nil_of_le
        simp
        omega
      rw [h1, h2, List.filter_append]
      have hno : ∀ j ∈ List.range n, ¬ i < j := by
        intro j hj
        have := List.mem_range.mp hj
        omega
      rw [List.filter_eq_nil_iff.mpr (by simpa using hno)]
      simp
      omega

/-- **C5.** The regression list is exactly one entry per unordered pair
`i < j` of numerical variables in which both variables have more than 10
values; and every fitted entry satisfies, with `n = min(len x, len y)`:
adjusted R² = 1 − (1 − R²)(n−1)/(n−2), F = R²/(1−R²)·(n−2), and
p-value = 0.05 when R² > 0.1, else 0.2. -/
theorem regression_pairs_and_formulas (vars : List Variable) :
    performRegressionAnalysis vars = regressionPairsSpec vars ∧
    ∀ x y : List ℚ,
      (performLinearRegression x y).adjustedRSquared =
        1 - (1 - (performLinearRegression x y).rSquared) *
          ((min x.length y.length : ℚ) - 1) /
          ((min x.length y.length : ℚ) - 2) ∧
      (performLinearRegression x y).fStatistic =
        (performLinearRegression x y).rSquared /
          (1 - (performLinearRegression x y).rSquared) *
          ((min x.length y.length : ℚ) - 2) ∧
      (performLinearRegression x y).pValue =
        (if (performLinearRegression x y).rSquared > 1/10 then (1/20 : ℚ)
         else 1/5) := by
  constructor
  · unfold performRegressionAnalysis regressionPairsSpec
    dsimp only
    by_cases h2 : (vars.filter (·.isNumerical)).length < 2
    · rw [if_pos h2]
      have h01 : (vars.filter (·.isNumerical)).length = 0 ∨
          (vars.filter (·.isNumerical)).length = 1 := by omega
      rcases h01 with h | h <;> rw [h] <;> simp
    · rw [if_neg h2]
      push_neg at h2
      simp only [range_drop_eq_filter]
      generalize hL : (List.filter (fun x => x.isNumerical) vars).length = L
      rw [hL] at h2
      obtain ⟨M, rfl⟩ : ∃ M, L = M + 1 := ⟨L - 1, by omega⟩
      simp only [Nat.add_sub_cancel]
      refine (flatMap_range_succ_of_last_nil _ M ?_).symm
      have hfil : List.filter (fun j => decide (M < j)) (List.range (M + 1)) = [] := by
        apply List.filter_eq_nil_iff.mpr
        intro j hj
        have := List.mem_range.mp hj
        simpa using by omega
      rw [hfil, List.filterMap_nil]
  · intro x y
    refine ⟨?_, ?_, ?_⟩ <;> simp [performLinearRegression]

/-! ### C9: data-quality grade -/

/-- Claim-side grading: score to 4-level grade. -/
def gradeOf (score : ℚ) : Grade :=
  if score ≥ 90 then Grade.excellent
  else if score ≥ 70 then Grade.good
  else if score ≥ 50 then Grade.fair
  else Grade.poor

/-- Numeric rank of a grade (used to state monotonicity). -/
def gradeRank : Grade → ℕ
  | Grade.poor => 0
  | Grade.fair => 1
  | Grade.good => 2
  | Grade.excellent => 3

theorem gradeOf_mono (s t : ℚ) (h : s ≤ t) :
    gradeRank (gradeOf s) ≤ gradeRank (gradeOf t) := by
  unfold gradeOf gradeRank
  split_ifs <;> simp_all <;> linarith

/-- **C9.** In the non-degenerate case the grade is obtained from
`score = 100 − 2·missing% − outlier% − 20·(non-normal fraction)` through
the thresholds 90/70/50; and, holding the outlier data and normality
p-values fixed, the grade is monotone non-increasing in the missing-value
percentage. -/
theorem data_quality_grade (m₁ m₂ : ℚ) (t : ℕ) (oc : List ℕ)
    (pv : List ℚ) (ht : t ≠ 0) (hpv : pv ≠ []) (hm : m₁ ≤ m₂) :
    assessDataQuality m₁ t oc pv =
      gradeOf (100 - m₁ * 2 - (oc.sum : ℚ) / (t : ℚ) * 100 -
        (((pv.filter (fun p => p < 1/20)).length : ℚ) / (pv.length : ℚ)) * 20) ∧
    gradeRank (assessDataQuality m₂ t oc pv) ≤
      gradeRank (assessDataQuality m₁ t oc pv) := by
  have hcond : ¬ (t = 0 ∨ pv.length = 0) := by
    push_neg
    exact ⟨ht, by simpa using hpv⟩
  constructor
  · unfold assessDataQuality gradeOf
    rw [if_neg hcond]
  · unfold assessDataQuality
    rw [if_neg hcond, if_neg hcond]
    apply gradeOf_mono
    have : m₁ * 2 ≤ m₂ * 2 := by linarith
    linarith

theorem data_quality_grade_witness :
    ((10 : ℕ) ≠ 0 ∧ ([1/100] : List ℚ) ≠ [] ∧ (1 : ℚ) ≤ 2) ∧
    (assessDataQuality 1 10 [1] [1/100] =
      gradeOf (100 - 1 * 2 - (([1] : List ℕ).sum : ℚ) / (10 : ℚ) * 100 -
        (((([1/100] : List ℚ).filter (fun p => p < 1/20)).length : ℚ) /
          (([1/100] : List ℚ).length : ℚ)) * 20) ∧
     gradeRank (assessDataQuality 2 10 [1] [1/100]) ≤
       gradeRank (assessDataQuality 1 10 [1] [1/100])) :=
  ⟨⟨by decide, by decide, by norm_num⟩,
    data_quality_grade 1 2 10 [1] [1/100] (by decide) (by decide) (by norm_num)⟩

/-! ### C2: correlation matrix shape, symmetry, diagonal -/

theorem calculatePearsonCorrelation_comm (x y : List ℚ) :
    calculatePearsonCorrelation x y = calculatePearsonCorrelation y x := by
  unfold calculatePearsonCorrelation
  dsimp only
  rw [min_comm y.length x.length]
  set n := min x.length y.length with hn
  set xs := x.take n with hxs
  set ys := y.take n with hys
  rcases lt_or_ge n 2 with h | h
  · rw [if_pos h, if_pos h]
  · rw [if_neg (not_lt.mpr h), if_neg (not_lt.mpr h)]
    have hzip : ((ys.zip xs).map
        (fun p => (p.1 - ssMean ys) * (p.2 - ssMean xs))).sum =
        ((xs.zip ys).map
          (fun p => (p.1 - ssMean xs) * (p.2 - ssMean ys))).sum := by
      rw [← List.zip_swap xs ys, List.map_map]
      congr 1
      apply List.map_congr_left
      intro p _
      simp [mul_comm]
    rw [hzip, mul_comm ((ys.map (fun b => (b - ssMean ys) ^ 2)).sum)
      ((xs.map (fun a => (a - ssMean xs) ^ 2)).sum)]

theorem ofFn_getD {α : Type} {n : ℕ} (g : Fin n → α) (i : ℕ) (hi : i < n)
    (d : α) : (List.ofFn g).getD i d = g ⟨i, hi⟩ := by
  rw [List.getD_eq_getElem?_getD, List.getElem?_eq_getElem (by simpa using hi)]
  simp [List.getElem_ofFn]

set_option linter.unusedVariables false in
/-- **C2.** Whenever a `CorrelationResult` is produced (at least 2
numerical variables), both matrices are square of dimension the number of
numerical variables, both are symmetric, and every diagonal entry has
r = 1 and p-value = 0. -/
theorem correlation_matrix_props (nv : List Variable) (h2 : 2 ≤ nv.length)
    (i j : ℕ) (hi : i < nv.length) (hj : j < nv.length) :
    (performCorrelationAnalysis nv).correlationMatrix.length = nv.length ∧
    (∀ row ∈ (performCorrelationAnalysis nv).correlationMatrix,
      row.length = nv.length) ∧
    (performCorrelationAnalysis nv).pValues.length = nv.length ∧
    (∀ row ∈ (performCorrelationAnalysis nv).pValues,
      row.length = nv.length) ∧
    ((performCorrelationAnalysis nv).correlationMatrix.getD i []).getD j 0 =
      ((performCorrelationAnalysis nv).correlationMatrix.getD j []).getD i 0 ∧
    ((performCorrelationAnalysis nv).pValues.getD i []).getD j 0 =
      ((performCorrelationAnalysis nv).pValues.getD j []).getD i 0 ∧
    ((performCorrelationAnalysis nv).correlationMatrix.getD i []).getD i 0
      = 1 ∧
    ((performCorrelationAnalysis nv).pValues.getD i []).getD i 0 = 0 := by
  unfold performCorrelationAnalysis
  dsimp only
  refine ⟨by simp, ?_, by simp, ?_, ?_, ?_, ?_, ?_⟩
  · intro row hrow
    obtain ⟨k, hk⟩ := (List.mem_ofFn _ _).mp hrow
    rw [← hk]
    simp
  · intro row hrow
    obtain ⟨k, hk⟩ := (List.mem_ofFn _ _).mp hrow
    rw [← hk]
    simp
  · rw [ofFn_getD _ i hi, ofFn_getD _ j hj, ofFn_getD _ j hj, ofFn_getD _ i hi]
    by_cases hij : i = j
    · simp [hij]
    · rw [if_neg hij, if_neg (Ne.symm hij)]
      exact calculatePearsonCorrelation_comm _ _
  · rw [ofFn_getD _ i hi, ofFn_getD _ j hj, ofFn_getD _ j hj, ofFn_getD _ i hi]
    by_cases hij : i = j
    · simp [hij]
    · rw [if_neg hij, if_neg (Ne.symm hij)]
      rw [calculatePearsonCorrelation_comm, min_comm]
  · rw [ofFn_getD _ i hi, ofFn_getD _ i hi]
    simp
  · rw [ofFn_getD _ i hi, ofFn_getD _ i hi]
    simp

/-- Two tiny numerical variables for the C2 witness. -/
def c2varA : Variable :=
  { name := "a", values := VarValues.numerical [1, 2, 3], missingCount := 0 }

/-- Second variable for the C2 witness. -/
def c2varB : Variable :=
  { name := "b", values := VarValues.numerical [2, 4, 5], missingCount := 0 }

theorem correlation_matrix_props_witness :
    ((2 ≤ ([c2varA, c2varB] : List Variable).length) ∧
      (0 : ℕ) < ([c2varA, c2varB] : List Variable).length ∧
      (1 : ℕ) < ([c2varA, c2varB] : List Variable).length) ∧
    ((performCorrelationAnalysis [c2varA, c2varB]).correlationMatrix.length =
        ([c2varA, c2varB] : List Variable).length ∧
      (∀ row ∈ (performCorrelationAnalysis [c2varA, c2varB]).correlationMatrix,
        row.length = ([c2varA, c2varB] : List Variable).length) ∧
      (performCorrelationAnalysis [c2varA, c2varB]).pValues.length =
        ([c2varA, c2varB] : List Variable).length ∧
      (∀ row ∈ (performCorrelationAnalysis [c2varA, c2varB]).pValues,
        row.length = ([c2varA, c2varB] : List Variable).length) ∧
      ((performCorrelationAnalysis [c2varA, c2varB]).correlationMatrix.getD 0
          []).getD 1 0 =
        ((performCorrelationAnalysis [c2varA, c2varB]).correlationMatrix.getD 1
          []).getD 0 0 ∧
      ((performCorrelationAnalysis [c2varA, c2varB]).pValues.getD 0 []).getD 1 0 =
        ((performCorrelationAnalysis [c2varA, c2varB]).pValues.getD 1 []).getD 0 0 ∧
      ((performCorrelationAnalysis [c2varA, c2varB]).correlationMatrix.getD 0
          []).getD 0 0 = 1 ∧
      ((performCorrelationAnalysis [c2varA, c2varB]).pValues.getD 0 []).getD 0 0
        = 0) :=
  ⟨⟨by decide, by decide, by decide⟩,
    correlation_matrix_props [c2varA, c2varB] (by decide) 0 1 (by decide)
      (by decide)⟩

/-! ### C7: order of the descriptive quantiles -/

theorem getD_eq_get (l : List ℚ) (i : ℕ) (hi : i < l.length) (d : ℚ) :
    l.getD i d = l.get ⟨i, hi⟩ := by
  rw [List.getD_eq_getElem?_getD, List.getElem?_eq_getElem hi]
  simp

theorem sorted_getD_mono (l : List ℚ) (hs : l.Sorted (· ≤ ·)) {i j : ℕ}
    (hij : i ≤ j) (hj : j < l.length) (d : ℚ) : l.getD i d ≤ l.getD j d := by
  have hi : i < l.length := lt_of_le_of_lt hij hj
  rw [getD_eq_get l i hi d, getD_eq_get l j hj d]
  rcases eq_or_lt_of_le hij with rfl | hlt
  · exact le_refl _
  · exact hs.rel_get_of_lt (by exact hlt)

theorem quantileSorted_mono (l : List ℚ) (hs : l.Sorted (· ≤ ·))
    (hne : l ≠ []) {p q : ℚ} (hp : 0 ≤ p) (hq1 : q ≤ 1) (hpq : p ≤ q) :
    quantileSorted l p ≤ quantileSorted l q := by
  obtain ⟨m, hm⟩ : ∃ m, l.length = m + 1 :=
    ⟨l.length - 1, by
      have := List.length_pos.mpr hne
      omega⟩
  unfold quantileSorted
  dsimp only
  rw [hm]
  have hcast : ((m + 1 : ℕ) : ℚ) - 1 = (m : ℚ) := by push_cast; ring
  rw [hcast]
  set h₁ : ℚ := (m : ℚ) * p with hh₁
  set h₂ : ℚ := (m : ℚ) * q with hh₂
  have hq0 : 0 ≤ q := le_trans hp hpq
  have h₁0 : 0 ≤ h₁ := mul_nonneg (by positivity) hp
  have h₂0 : 0 ≤ h₂ := mul_nonneg (by positivity) hq0
  have h12 : h₁ ≤ h₂ := mul_le_mul_of_nonneg_left hpq (by positivity)
  have h₂m : h₂ ≤ (m : ℚ) := by
    calc h₂ = (m : ℚ) * q := rfl
    _ ≤ (m : ℚ) * 1 := mul_le_mul_of_nonneg_left hq1 (by positivity)
    _ = (m : ℚ) := by ring
  set i₁ : ℕ := ⌊h₁⌋.toNat with hi₁
  set i₂ : ℕ := ⌊h₂⌋.toNat with hi₂
  have hf₁ : (⌊h₁⌋ : ℚ) = (i₁ : ℚ) := by
    rw [hi₁]
    norm_cast
    exact (Int.toNat_of_nonneg (Int.floor_nonneg.mpr h₁0)).symm
  have hf₂ : (⌊h₂⌋ : ℚ) = (i₂ : ℚ) := by
    rw [hi₂]
    norm_cast
    exact (Int.toNat_of_nonneg (Int.floor_nonneg.mpr h₂0)).symm
  have hi₁le : (i₁ : ℚ) ≤ h₁ := by rw [← hf₁]; exact Int.floor_le h₁
  have hi₂le : (i₂ : ℚ) ≤ h₂ := by rw [← hf₂]; exact Int.floor_le h₂
  have hi₁lt : h₁ < (i₁ : ℚ) + 1 := by rw [← hf₁]; exact Int.lt_floor_add_one h₁
  have hi₂lt : h₂ < (i₂ : ℚ) + 1 := by rw [← hf₂]; exact Int.lt_floor_add_one h₂
  have hii : i₁ ≤ i₂ := by
    rw [hi₁, hi₂]
    exact Int.toNat_le_toNat (Int.floor_le_floor h12)
  have hi₂m : i₂ ≤ m := by
    have : ⌊h₂⌋ ≤ (m : ℤ) := by
      have := Int.floor_le_floor h₂m
      simpa using this
    omega
  have hi₁m : i₁ ≤ m := le_trans hii hi₂m
  have hlen : i₂ < l.length := by omega
  have hlo₁ : l.getD i₁ 0 ≤ l.getD (i₁ + 1) (l.getD i₁ 0) := by
    rcases lt_or_ge (i₁ + 1) l.length with hlt | hge
    · rw [getD_eq_get l (i₁ + 1) hlt]
      rw [getD_eq_get l i₁ (by omega)]
      exact hs.rel_get_of_lt (by simp)
    · rw [List.getD_eq_default _ _ hge]
  have hlo₂ : l.getD i₂ 0 ≤ l.getD (i₂ + 1) (l.getD i₂ 0) := by
    rcases lt_or_ge (i₂ + 1) l.length with hlt | hge
    · rw [getD_eq_get l (i₂ + 1) hlt]
      rw [getD_eq_get l i₂ (by omega)]
      exact hs.rel_get_of_lt (by simp)
    · rw [List.getD_eq_default _ _ hge]
  rcases eq_or_lt_of_le hii with heq | hlt
  · rw [heq]
    have hfr : h₁ - (i₂ : ℚ) ≤ h₂ - (i₂ : ℚ) := by linarith
    have hd : 0 ≤ l.getD (i₂ + 1) (l.getD i₂ 0) - l.getD i₂ 0 := by
      rw [heq] at hlo₁
      linarith [hlo₂]
    nlinarith [hd, hfr, sub_nonneg.mpr hi₁le]
  · -- i₁ < i₂ : Q(p) ≤ hi₁ ≤ lo₂ ≤ Q(q)
    have hQ₁ : l.getD i₁ 0 + (h₁ - (i₁ : ℚ)) *
        (l.getD (i₁ + 1) (l.getD i₁ 0) - l.getD i₁ 0) ≤
        l.getD (i₁ + 1) (l.getD i₁ 0) := by
      nlinarith [hlo₁, hi₁le, hi₁lt]
    have hmid : l.getD (i₁ + 1) (l.getD i₁ 0) ≤ l.getD i₂ 0 := by
      have h1len : i₁ + 1 < l.length := by omega
      rw [getD_eq_get l (i₁ + 1) h1len]
      rw [← getD_eq_get l (i₁ + 1) h1len 0]
      exact sorted_getD_mono l hs (by omega) hlen 0
    have hQ₂ : l.getD i₂ 0 ≤ l.getD i₂ 0 + (h₂ - (i₂ : ℚ)) *
        (l.getD (i₂ + 1) (l.getD i₂ 0) - l.getD i₂ 0) := by
      nlinarith [hlo₂, hi₂le]
    linarith

theorem quantileSorted_zero (l : List ℚ) : quantileSorted l 0 = l.getD 0 0 := by
  simp [quantileSorted]

theorem quantileSorted_one (l : List ℚ) (hne : l ≠ []) :
    quantileSorted l 1 = l.getD (l.length - 1) 0 := by
  obtain ⟨m, hm⟩ : ∃ m, l.length = m + 1 :=
    ⟨l.length - 1, by
      have := List.length_pos.mpr hne
      omega⟩
  unfold quantileSorted
  dsimp only
  rw [hm]
  have hcast : ((m + 1 : ℕ) : ℚ) - 1 = (m : ℚ) := by push_cast; ring
  rw [hcast, mul_one]
  have hfl : ⌊(m : ℚ)⌋.toNat = m := by simp
  rw [hfl]
  have : (m : ℚ) - (m : ℚ) = 0 := by ring
  rw [this, zero_mul, add_zero]
  simp

theorem foldl_min_mem (xs : List ℚ) (x : ℚ) : xs.foldl min x ∈ x :: xs := by
  induction xs generalizing x with
  | nil => simp
  | cons y ys ih =>
    rw [List.foldl_cons]
    rcases List.mem_cons.mp (ih (min x y)) with h | h
    · rw [h]
      rcases min_choice x y with h' | h' <;> rw [h'] <;> simp
    · simp [h]

theorem foldl_min_le (xs : List ℚ) :
    ∀ x : ℚ, ∀ y ∈ x :: xs, xs.foldl min x ≤ y := by
  induction xs with
  | nil =>
    intro x y hy
    simp at hy
    subst hy
    exact le_refl _
  | cons z zs ih =>
    intro x y hy
    rw [List.foldl_cons]
    rcases List.mem_cons.mp hy with hxy | hy'
    · subst hxy
      exact le_trans (ih (min y z) _ (List.mem_cons_self _ _)) (min_le_left _ _)
    · rcases List.mem_cons.mp hy' with hzy | hy''
      · subst hzy
        exact le_trans (ih (min x y) _ (List.mem_cons_self _ _)) (min_le_right _ _)
      · exact ih (min x z) y (List.mem_cons_of_mem _ hy'')

theorem foldl_max_mem (xs : List ℚ) (x : ℚ) : xs.foldl max x ∈ x :: xs := by
  induction xs generalizing x with
  | nil => simp
  | cons y ys ih =>
    rw [List.foldl_cons]
    rcases List.mem_cons.mp (ih (max x y)) with h | h
    · rw [h]
      rcases max_choice x y with h' | h' <;> rw [h'] <;> simp
    · simp [h]

theorem le_foldl_max (xs : List ℚ) :
    ∀ x : ℚ, ∀ y ∈ x :: xs, y ≤ xs.foldl max x := by
  induction xs with
  | nil =>
    intro x y hy
    simp at hy
    subst hy
    exact le_refl _
  | cons z zs ih =>
    intro x y hy
    rw [List.foldl_cons]
    rcases List.mem_cons.mp hy with hxy | hy'
    · subst hxy
      exact le_trans (le_max_left _ _) (ih (max y z) _ (List.mem_cons_self _ _))
    · rcases List.mem_cons.mp hy' with hzy | hy''
      · subst hzy
        exact le_trans (le_max_right _ _) (ih (max x y) _ (List.mem_cons_self _ _))
      · exact ih (max x z) y (List.mem_cons_of_mem _ hy'')

theorem numericSort_length (l : List ℚ) :
    (numericSort l).length = l.length :=
  List.length_insertionSort _ _

theorem ssMin_eq_sorted_head (l : List ℚ) (hne : l ≠ []) :
    ssMin l = (numericSort l).getD 0 0 := by
  obtain ⟨x, xs, rfl⟩ := List.exists_cons_of_ne_nil hne
  have hperm : List.Perm (numericSort (x :: xs)) (x :: xs) :=
    List.perm_insertionSort _ _
  have hs : (numericSort (x :: xs)).Sorted (· ≤ ·) :=
    List.sorted_insertionSort _ _
  have hlen : 0 < (numericSort (x :: xs)).length := by
    rw [numericSort_length]
    simp
  apply le_antisymm
  · have hmem : (numericSort (x :: xs)).getD 0 0 ∈ x :: xs := by
      apply hperm.mem_iff.mp
      rw [getD_eq_get _ 0 hlen]
      exact List.get_mem _ _ _
    exact foldl_min_le xs x _ hmem
  · have hmem : ssMin (x :: xs) ∈ numericSort (x :: xs) :=
      hperm.mem_iff.mpr (foldl_min_mem xs x)
    obtain ⟨k, hk⟩ := List.get_of_mem hmem
    rw [← hk, ← getD_eq_get _ k.1 k.2 0]
    exact sorted_getD_mono _ hs (Nat.zero_le _) k.2 0

theorem ssMax_eq_sorted_last (l : List ℚ) (hne : l ≠ []) :
    ssMax l = (numericSort l).getD ((numericSort l).length - 1) 0 := by
  obtain ⟨x, xs, rfl⟩ := List.exists_cons_of_ne_nil hne
  have hperm : List.Perm (numericSort (x :: xs)) (x :: xs) :=
    List.perm_insertionSort _ _
  have hs : (numericSort (x :: xs)).Sorted (· ≤ ·) :=
    List.sorted_insertionSort _ _
  have hlen : 0 < (numericSort (x :: xs)).length := by
    rw [numericSort_length]
    simp
  have hlast : (numericSort (x :: xs)).length - 1 <
      (numericSort (x :: xs)).length := by omega
  apply le_antisymm
  · have hmem : ssMax (x :: xs) ∈ numericSort (x :: xs) :=
      hperm.mem_iff.mpr (foldl_max_mem xs x)
    obtain ⟨k, hk⟩ := List.get_of_mem hmem
    rw [← hk, ← getD_eq_get _ k.1 k.2 0]
    exact sorted_getD_mono _ hs (by omega) hlast 0
  · have hmem : (numericSort (x :: xs)).getD
        ((numericSort (x :: xs)).length - 1) 0 ∈ x :: xs := by
      apply hperm.mem_iff.mp
      rw [getD_eq_get _ _ hlast]
      exact List.get_mem _ _ _
    exact le_foldl_max xs x _ hmem

/-- **C7.** For every numerical variable with at least one value, the
descriptive statistics satisfy `min ≤ Q1 ≤ median ≤ Q3 ≤ max`. -/
theorem descriptive_stats_order (v : Variable) (vals : List ℚ)
    (hv : v.values = VarValues.numerical vals) (hne : vals ≠ []) :
    ∃ stats, calculateDescriptiveStats v = Except.ok stats ∧
      stats.min = some (ssMin vals) ∧
      stats.q1 = some (ssQuantile vals (1/4)) ∧
      stats.median = some (ssMedian vals) ∧
      stats.q3 = some (ssQuantile vals (3/4)) ∧
      stats.max = some (ssMax vals) ∧
      ssMin vals ≤ ssQuantile vals (1/4) ∧
      ssQuantile vals (1/4) ≤ ssMedian vals ∧
      ssMedian vals ≤ ssQuantile vals (3/4) ∧
      ssQuantile vals (3/4) ≤ ssMax vals := by
  have hnum : v.isNumerical = true := by simp [Variable.isNumerical, hv]
  have hvals : v.numVals = vals := by simp [Variable.numVals, hv]
  have hlen : 0 < vals.length := List.length_pos.mpr hne
  have hsne : numericSort vals ≠ [] := by
    intro h
    have h0 : vals.length = 0 := by
      have hl := numericSort_length vals
      rw [h] at hl
      simpa using hl.symm
    exact hne (List.length_eq_zero.mp h0)
  have hs : (numericSort vals).Sorted (· ≤ ·) := List.sorted_insertionSort _ _
  have mono : ∀ p q : ℚ, 0 ≤ p → q ≤ 1 → p ≤ q →
      ssQuantile vals p ≤ ssQuantile vals q := fun p q hp hq hpq =>
    quantileSorted_mono (numericSort vals) hs hsne hp hq hpq
  have hminq : ssMin vals ≤ ssQuantile vals (1/4) := by
    rw [ssMin_eq_sorted_head vals hne, ← quantileSorted_zero (numericSort vals)]
    exact mono 0 (1/4) (le_refl 0) (by norm_num) (by norm_num)
  have hmaxq : ssQuantile vals (3/4) ≤ ssMax vals := by
    rw [ssMax_eq_sorted_last vals hne,
      ← quantileSorted_one (numericSort vals) hsne]
    exact mono (3/4) 1 (by norm_num) (le_refl 1) (by norm_num)
  have hcalc : calculateDescriptiveStats v = Except.ok
      { variable_ := v.name, isNumerical := true, count := vals.length,
        missing := v.missingCount, mean := some (ssMean vals),
        median := some (ssMedian vals),
        mode := some (ModeValue.num (ssMode vals)),
        standardDeviation := some (ssStandardDeviation vals),
        variance := some (ssVariance vals), min := some (ssMin vals),
        max := some (ssMax vals), q1 := some (ssQuantile vals (1/4)),
        q3 := some (ssQuantile vals (3/4)) } := by
    unfold calculateDescriptiveStats
    rw [if_pos ⟨hnum, by rw [hvals]; exact hlen⟩, hvals, hv]
  refine ⟨_, hcalc, rfl, rfl, rfl, rfl, rfl, hminq,
    mono (1/4) (1/2) (by norm_num) (by norm_num) (by norm_num),
    mono (1/2) (3/4) (by norm_num) (by norm_num) (by norm_num), hmaxq⟩

/-- Numerical variable for the C7 witness. -/
def c7var : Variable :=
  { name := "w", values := VarValues.numerical [2, 1, 3], missingCount := 0 }

theorem descriptive_stats_order_witness :
    (c7var.values = VarValues.numerical [2, 1, 3] ∧
      ([2, 1, 3] : List ℚ) ≠ []) ∧
    (∃ stats, calculateDescriptiveStats c7var = Except.ok stats ∧
      stats.min = some (ssMin [2, 1, 3]) ∧
      stats.q1 = some (ssQuantile [2, 1, 3] (1/4)) ∧
      stats.median = some (ssMedian [2, 1, 3]) ∧
      stats.q3 = some (ssQuantile [2, 1, 3] (3/4)) ∧
      stats.max = some (ssMax [2, 1, 3]) ∧
      ssMin [2, 1, 3] ≤ ssQuantile [2, 1, 3] (1/4) ∧
      ssQuantile [2, 1, 3] (1/4) ≤ ssMedian [2, 1, 3] ∧
      ssMedian [2, 1, 3] ≤ ssQuantile [2, 1, 3] (3/4) ∧
      ssQuantile [2, 1, 3] (3/4) ≤ ssMax [2, 1, 3]) :=
  ⟨⟨rfl, by decide⟩,
    descriptive_stats_order c7var [2, 1, 3] rfl (by decide)⟩

/-! ### C10: analyzeData throws exactly on empty columns -/

theorem freqEntries_eq_nil_iff (keys : List String) :
    freqEntries keys = [] ↔ keys = [] := by
  constructor
  · intro h
    by_contra hne
    exact foldl_bumpFreq_ne_nil keys [] (Or.inr hne) h
  · rintro rfl
    rfl

theorem categoricalMode_eq_none_iff (keys : List String) :
    categoricalMode keys = none ↔ keys = [] := by
  unfold categoricalMode
  cases h : jsEntries (freqEntries keys) with
  | nil =>
    simp [(freqEntries_eq_nil_iff keys).mp ((jsEntries_eq_nil_iff _).mp h)]
  | cons e rest =>
    have : keys ≠ [] := by
      intro hk
      rw [hk] at h
      simp [freqEntries, jsEntries] at h
    simp [this]

theorem calculateDescriptiveStats_error_iff (v : Variable) :
    (∃ msg, calculateDescriptiveStats v = Except.error msg) ↔
      (¬ (v.isNumerical = true ∧ 0 < v.numVals.length) ∧ v.entryKeys = []) := by
  unfold calculateDescriptiveStats
  by_cases hcond : v.isNumerical = true ∧ 0 < v.numVals.length
  · rw [if_pos hcond]
    simp [hcond]
  · rw [if_neg hcond]
    cases hm : categoricalMode v.entryKeys with
    | none =>
      simp only [hm]
      simp [hcond, (categoricalMode_eq_none_iff _).mp hm]
    | some m =>
      simp only [hm]
      have : v.entryKeys ≠ [] := by
        intro hk
        rw [(categoricalMode_eq_none_iff v.entryKeys).mpr hk] at hm
        exact Option.noConfusion hm
      simp [this]

theorem map_range_getD {α : Type} [Inhabited α] (n : ℕ) (f : ℕ → α) (j : ℕ)
    (hj : j < n) : ((List.range n).map f).getD j default = f j := by
  simp [List.getD, List.getElem?_map, List.getElem?_range, hj]

theorem mem_detectVariables_iff (data : List (List Cell))
    (headers : List String) (v : Variable) :
    v ∈ detectVariables data headers ↔
      ∃ j < headers.length,
        v = (detectVariables data headers).getD j default := by
  constructor
  · intro hv
    obtain ⟨j, hj, hfj⟩ := List.mem_map.mp hv
    have hjlt : j < headers.length := List.mem_range.mp hj
    refine ⟨j, hjlt, ?_⟩
    rw [show detectVariables data headers =
      (List.range headers.length).map _ from rfl, map_range_getD _ _ j hjlt, hfj]
  · rintro ⟨j, hj, rfl⟩
    rw [show detectVariables data headers =
      (List.range headers.length).map _ from rfl, map_range_getD _ _ j hj]
    exact List.mem_map.mpr ⟨j, List.mem_range.mpr hj, rfl⟩

theorem detect_var_error_iff (data : List (List Cell))
    (headers : List String) (j : ℕ) (hj : j < headers.length) :
    (∃ msg, calculateDescriptiveStats
        ((detectVariables data headers).getD j default) = Except.error msg) ↔
      (columnData data j).length = 0 := by
  rw [calculateDescriptiveStats_error_iff, detectVariables_getD data headers j hj]
  dsimp only
  by_cases hn : ((numericalData data j).length : ℚ) >
      ((columnData data j).length : ℚ) * (4/5)
  · -- numerical: never errors, and the column is necessarily non-empty
    have hpos : 0 < (numericalData data j).length := by
      by_contra h0
      push_neg at h0
      have h00 : (numericalData data j).length = 0 := by omega
      rw [h00] at hn
      push_cast at hn
      have : (0 : ℚ) ≤ ((columnData data j).length : ℚ) * (4/5) := by positivity
      linarith
    have hcd : (columnData data j).length ≠ 0 := by
      intro h0
      have hle : (numericalData data j).length ≤ (columnData data j).length :=
        List.length_filterMap_le _ _
      omega
    simp [Variable.isNumerical, Variable.numVals, hn, hpos, hcd,
      decide_eq_true_eq]
  · -- categorical: errors exactly when the column is empty
    simp [Variable.isNumerical, Variable.numVals, Variable.entryKeys, hn,
      decide_eq_true_eq, List.length_eq_zero]

theorem mapM_descStats_error_iff (l : List Variable) :
    (∃ msg, l.mapM calculateDescriptiveStats = Except.error msg) ↔
      ∃ v ∈ l, ∃ msg, calculateDescriptiveStats v = Except.error msg := by
  induction l with
  | nil =>
    rw [List.mapM_nil]
    simp [pure, Except.pure]
  | cons v t ih =>
    rw [List.mapM_cons]
    cases h : calculateDescriptiveStats v with
    | error e =>
      simp only [h, Bind.bind, Except.bind]
      constructor
      · intro _
        exact ⟨v, List.mem_cons_self _ _, e, h⟩
      · intro _
        exact ⟨e, rfl⟩
    | ok a =>
      simp only [h, Bind.bind, Except.bind]
      cases hm : t.mapM calculateDescriptiveStats with
      | error e =>
        simp only [Bind.bind, Except.bind] at ih
        rw [hm] at ih
        constructor
        · intro _
          obtain ⟨w, hw, he⟩ := ih.mp ⟨e, rfl⟩
          exact ⟨w, List.mem_cons_of_mem _ hw, he⟩
        · intro _
          exact ⟨e, rfl⟩
      | ok bs =>
        rw [hm] at ih
        constructor
        · rintro ⟨msg, hmsg⟩
          exact absurd hmsg (by simp [pure, Except.pure])
        · rintro ⟨w, hw, msg, hmsg⟩
          rcases List.mem_cons.mp hw with rfl | hwt
          · rw [h] at hmsg
            exact absurd hmsg (by simp)
          · obtain ⟨e, he⟩ := ih.mpr ⟨w, hwt, msg, hmsg⟩
            exact absurd he (by simp)

/-- **C10.** `analyzeData` fails (the categorical-mode `reduce` throws)
iff some column of the input has zero non-missing cells; for every input
whose columns each contain at least one non-missing cell it returns a
`StatisticalResults` without throwing. -/
theorem analyzeData_error_iff (data : List (List Cell))
    (headers : List String) :
    (∃ msg, analyzeData data headers = Except.error msg) ↔
      ∃ j < headers.length, (columnData data j).length = 0 := by
  have hsplit : ∀ msg, analyzeData data headers = Except.error msg ↔
      (detectVariables data headers).mapM calculateDescriptiveStats =
        Except.error msg := by
    intro msg
    unfold analyzeData
    dsimp only
    cases h : (detectVariables data headers).mapM calculateDescriptiveStats with
    | error e => simp [Bind.bind, Except.bind]
    | ok ds => simp [Bind.bind, Except.bind, pure, Except.pure]
  constructor
  · rintro ⟨msg, hmsg⟩
    have herr := (hsplit msg).mp hmsg
    obtain ⟨v, hv, msg', hmsg'⟩ :=
      (mapM_descStats_error_iff _).mp ⟨msg, herr⟩
    obtain ⟨j, hj, rfl⟩ := (mem_detectVariables_iff data headers v).mp hv
    exact ⟨j, hj, (detect_var_error_iff data headers j hj).mp ⟨msg', hmsg'⟩⟩
  · rintro ⟨j, hj, hcol⟩
    obtain ⟨msg', hmsg'⟩ :=
      (detect_var_error_iff data headers j hj).mpr hcol
    have hmem : (detectVariables data headers).getD j default ∈
        detectVariables data headers :=
      (mem_detectVariables_iff data headers _).mpr ⟨j, hj, rfl⟩
    obtain ⟨msg, hmsg⟩ := (mapM_descStats_error_iff _).mpr
      ⟨_, hmem, msg', hmsg'⟩
    exact ⟨msg, (hsplit msg).mpr hmsg⟩

/-! ### C3: the correlation p-value lies in [0, 1] -/

theorem gamma_of_one_le (x : ℝ) (hx : 1 ≤ x) :
    gamma x = Real.sqrt (2 * Real.pi / x) * (x / Real.exp 1) ^ x := by
  rw [gamma]
  rw [dif_neg (not_lt.mpr hx)]

theorem gamma_of_lt_one (x : ℝ) (hx : x < 1) :
    gamma x = gamma (x + 1) / x := by
  rw [gamma]
  rw [dif_pos hx]

theorem gamma_pos (x : ℝ) (hx : 0 < x) : 0 < gamma x := by
  have hstirling : ∀ y : ℝ, 1 ≤ y →
      0 < Real.sqrt (2 * Real.pi / y) * (y / Real.exp 1) ^ y := by
    intro y hy
    have hy0 : (0:ℝ) < y := by linarith
    apply mul_pos
    · apply Real.sqrt_pos.mpr
      have := Real.pi_pos
      positivity
    · exact Real.rpow_pos_of_pos (by positivity) y
  rcases lt_or_ge x 1 with h | h
  · rw [gamma_of_lt_one x h]
    apply div_pos _ hx
    rw [gamma_of_one_le (x + 1) (by linarith)]
    exact hstirling (x + 1) (by linarith)
  · rw [gamma_of_one_le x h]
    exact hstirling x h

theorem gamma_half_sq :
    gamma (1/2) ^ (2:ℕ) = 18 * Real.pi / Real.exp 1 ^ (3:ℕ) := by
  have he0 : (0:ℝ) < Real.exp 1 := Real.exp_pos 1
  rw [gamma_of_lt_one (1/2) (by norm_num)]
  rw [show (1/2 : ℝ) + 1 = 3/2 from by norm_num]
  rw [gamma_of_one_le (3/2) (by norm_num)]
  have hb : (0:ℝ) ≤ (3/2 : ℝ) / Real.exp 1 := by positivity
  have hsq : (((3/2 : ℝ) / Real.exp 1) ^ ((3:ℝ)/2)) ^ (2:ℕ) =
      ((3/2 : ℝ) / Real.exp 1) ^ (3:ℕ) := by
    rw [← Real.rpow_natCast (((3/2 : ℝ) / Real.exp 1) ^ ((3:ℝ)/2)) 2,
      ← Real.rpow_mul hb]
    rw [show ((3:ℝ)/2) * ((2:ℕ):ℝ) = ((3:ℕ):ℝ) from by norm_num]
    rw [Real.rpow_natCast]
  rw [div_pow, mul_pow, Real.sq_sqrt (by positivity), hsq]
  rw [div_pow]
  field_simp
  ring

theorem one_le_gamma_half : 1 ≤ gamma (1/2) := by
  have hpos : 0 < gamma (1/2) := gamma_pos _ (by norm_num)
  have he0 : (0:ℝ) < Real.exp 1 := Real.exp_pos 1
  have hcube : Real.exp 1 ^ (3:ℕ) < 27 := by
    have he3 : Real.exp 1 < 3 := lt_trans Real.exp_one_lt_d9 (by norm_num)
    calc Real.exp 1 ^ (3:ℕ) < 3 ^ (3:ℕ) :=
          pow_lt_pow_left₀ he3 he0.le (by norm_num)
      _ = 27 := by norm_num
  have hpi : (3:ℝ) < Real.pi := Real.pi_gt_three
  have h2 : (1:ℝ) ≤ gamma (1/2) ^ (2:ℕ) := by
    rw [gamma_half_sq, le_div_iff₀ (by positivity)]
    nlinarith
  by_contra hlt
  push_neg at hlt
  have : gamma (1/2) ^ (2:ℕ) < 1 := by nlinarith
  linarith

theorem aBeta_ge_one_of_one_le (a : ℝ) (ha : 1 ≤ a) :
    1 ≤ a * beta a (1/2) := by
  have ha0 : (0:ℝ) < a := by linarith
  have hs1 : (1:ℝ) ≤ a + 1/2 := by linarith
  have hs0 : (0:ℝ) < a + 1/2 := by linarith
  have he0 : (0:ℝ) < Real.exp 1 := Real.exp_pos 1
  have hpi : (0:ℝ) < Real.pi := Real.pi_pos
  have hgh1 : 1 ≤ gamma (1/2) := one_le_gamma_half
  have hgs0 : 0 < gamma (a + 1/2) := gamma_pos _ hs0
  unfold beta
  rw [show a * (gamma a * gamma (1/2) / gamma (a + 1/2)) =
    a * gamma a * gamma (1/2) / gamma (a + 1/2) from by ring]
  rw [le_div_iff₀ hgs0, one_mul]
  rw [gamma_of_one_le a ha, gamma_of_one_le _ hs1]
  have hbase : (0:ℝ) < (a + 1/2) / Real.exp 1 := by positivity
  have hA0 : (0:ℝ) ≤ (a / Real.exp 1) ^ a :=
    Real.rpow_nonneg (by positivity) a
  have hstep1 : ((a + 1/2) / Real.exp 1) ^ (a + 1/2) =
      ((a + 1/2) / Real.exp 1) ^ a *
        Real.sqrt ((a + 1/2) / Real.exp 1) := by
    rw [Real.rpow_add hbase a (1/2), Real.sqrt_eq_rpow]
  have hsplit2 : ((a + 1/2) / Real.exp 1) ^ a =
      (a / Real.exp 1) ^ a * ((a + 1/2) / a) ^ a := by
    rw [← Real.mul_rpow (by positivity) (by positivity)]
    congr 1
    field_simp
    ring
  have hexp : ((a + 1/2) / a) ^ a ≤ Real.sqrt (Real.exp 1) := by
    have h1 : (a + 1/2) / a ≤ Real.exp (1 / (2 * a)) := by
      have h2 := Real.add_one_le_exp (1 / (2 * a))
      have h3 : (a + 1/2) / a = 1 / (2 * a) + 1 := by
        field_simp
        ring
      rw [h3]
      exact h2
    have h4 : ((a + 1/2) / a) ^ a ≤ (Real.exp (1 / (2 * a))) ^ a :=
      Real.rpow_le_rpow (by positivity) h1 (by linarith)
    have h5 : (Real.exp (1 / (2 * a))) ^ a = Real.exp (1/2) := by
      rw [Real.rpow_def_of_pos (Real.exp_pos _), Real.log_exp]
      congr 1
      field_simp
      ring
    have h6 : Real.exp (1/2) = Real.sqrt (Real.exp 1) := by
      rw [show Real.exp 1 = Real.exp (1/2) * Real.exp (1/2) from by
        rw [← Real.exp_add]
        norm_num]
      rw [Real.sqrt_mul_self (Real.exp_pos _).le]
    rw [← h5, ← h6] at *
    exact le_trans h4 (by rw [h5, h6])
  have hfold : Real.sqrt (2 * Real.pi / (a + 1/2)) *
      Real.sqrt ((a + 1/2) / Real.exp 1) =
      Real.sqrt (2 * Real.pi / Real.exp 1) := by
    rw [← Real.sqrt_mul (by positivity)]
    congr 1
    field_simp
    ring
  have hsa : a * Real.sqrt (2 * Real.pi / a) =
      Real.sqrt a * Real.sqrt (2 * Real.pi) := by
    nth_rewrite 1 [show a = Real.sqrt (a ^ 2) from (Real.sqrt_sq ha0.le).symm]
    rw [← Real.sqrt_mul (by positivity), ← Real.sqrt_mul ha0.le]
    congr 1
    field_simp
    ring
  have hee : Real.sqrt (Real.exp 1) * Real.sqrt (2 * Real.pi / Real.exp 1) =
      Real.sqrt (2 * Real.pi) := by
    rw [← Real.sqrt_mul he0.le]
    congr 1
    field_simp
  have hsqa : (1:ℝ) ≤ Real.sqrt a := by
    rw [show (1:ℝ) = Real.sqrt 1 from Real.sqrt_one.symm]
    exact Real.sqrt_le_sqrt ha
  calc Real.sqrt (2 * Real.pi / (a + 1/2)) *
        ((a + 1/2) / Real.exp 1) ^ (a + 1/2)
      = (a / Real.exp 1) ^ a * ((a + 1/2) / a) ^ a *
        (Real.sqrt (2 * Real.pi / (a + 1/2)) *
          Real.sqrt ((a + 1/2) / Real.exp 1)) := by
        rw [hstep1, hsplit2]
        ring
    _ = (a / Real.exp 1) ^ a * ((a + 1/2) / a) ^ a *
        Real.sqrt (2 * Real.pi / Real.exp 1) := by rw [hfold]
    _ ≤ (a / Real.exp 1) ^ a * Real.sqrt (Real.exp 1) *
        Real.sqrt (2 * Real.pi / Real.exp 1) := by
        have h0 : (0:ℝ) ≤ Real.sqrt (2 * Real.pi / Real.exp 1) :=
          Real.sqrt_nonneg _
        exact mul_le_mul_of_nonneg_right
          (mul_le_mul_of_nonneg_left hexp hA0) h0
    _ = (a / Real.exp 1) ^ a * Real.sqrt (2 * Real.pi) := by
        rw [mul_assoc, hee]
    _ ≤ (a / Real.exp 1) ^ a * (Real.sqrt a * Real.sqrt (2 * Real.pi) *
        gamma (1/2)) := by
        have h0 : (0:ℝ) ≤ Real.sqrt (2 * Real.pi) := Real.sqrt_nonneg _
        have hw : Real.sqrt (2 * Real.pi) ≤
            Real.sqrt a * Real.sqrt (2 * Real.pi) * gamma (1/2) := by
          calc Real.sqrt (2 * Real.pi)
              = 1 * Real.sqrt (2 * Real.pi) * 1 := by ring
            _ ≤ Real.sqrt a * Real.sqrt (2 * Real.pi) * gamma (1/2) := by
                apply mul_le_mul _ hgh1 zero_le_one
                  (mul_nonneg (le_trans zero_le_one hsqa) h0)
                exact mul_le_mul hsqa (le_refl _) h0
                  (le_trans zero_le_one hsqa)
        exact mul_le_mul_of_nonneg_left hw hA0
    _ = a * (Real.sqrt (2 * Real.pi / a) * (a / Real.exp 1) ^ a) *
        gamma (1/2) := by
        rw [show a * (Real.sqrt (2 * Real.pi / a) * (a / Real.exp 1) ^ a) *
            gamma (1/2) = (a * Real.sqrt (2 * Real.pi / a)) *
              (a / Real.exp 1) ^ a * gamma (1/2) from by ring, hsa]
        ring

theorem aBeta_ge_one_half : 1 ≤ (1/2 : ℝ) * beta (1/2) (1/2) := by
  have he0 : (0:ℝ) < Real.exp 1 := Real.exp_pos 1
  have hpi : (0:ℝ) < Real.pi := Real.pi_pos
  have hΓh0 : 0 < gamma (1/2) := gamma_pos _ (by norm_num)
  have hΓ1 : gamma 1 = Real.sqrt (2 * Real.pi) / Real.exp 1 := by
    rw [gamma_of_one_le 1 (le_refl 1), Real.rpow_one]
    rw [show (2 * Real.pi / 1 : ℝ) = 2 * Real.pi from by ring]
    ring
  have hΓ10 : 0 < gamma 1 := gamma_pos _ (by norm_num)
  have hD0 : 0 < (1/2 : ℝ) * beta (1/2) (1/2) := by
    unfold beta
    rw [show (1/2 : ℝ) + 1/2 = 1 from by norm_num]
    positivity
  have hsq : ((1/2 : ℝ) * beta (1/2) (1/2)) ^ (2:ℕ) =
      81 * Real.pi / (2 * Real.exp 1 ^ (4:ℕ)) := by
    unfold beta
    rw [show (1/2 : ℝ) + 1/2 = 1 from by norm_num, hΓ1]
    rw [show gamma (1/2) * gamma (1/2) = gamma (1/2) ^ (2:ℕ) from by ring,
      gamma_half_sq]
    generalize hE : Real.exp 1 = E at he0 ⊢
    have hS : Real.sqrt (2 * Real.pi) ^ (2:ℕ) = 2 * Real.pi :=
      Real.sq_sqrt (by positivity)
    rw [div_div_eq_mul_div]
    rw [show ((1/2 : ℝ) * (18 * Real.pi / E ^ (3:ℕ) * E /
        Real.sqrt (2 * Real.pi))) ^ (2:ℕ) =
        (1/4) * (18 * Real.pi / E ^ (3:ℕ) * E) ^ (2:ℕ) /
          Real.sqrt (2 * Real.pi) ^ (2:ℕ) from by ring]
    rw [hS]
    field_simp
    ring
  by_contra hlt
  push_neg at hlt
  have h2 : ((1/2 : ℝ) * beta (1/2) (1/2)) ^ (2:ℕ) < 1 := by nlinarith [hD0]
  rw [hsq] at h2
  have hq : Real.exp 1 ^ (4:ℕ) < 55 := by
    have he9 : Real.exp 1 < 2.7182818286 := Real.exp_one_lt_d9
    calc Real.exp 1 ^ (4:ℕ) < 2.7182818286 ^ (4:ℕ) :=
          pow_lt_pow_left₀ he9 he0.le (by norm_num)
      _ < 55 := by norm_num
  have hpi3 : (3:ℝ) < Real.pi := Real.pi_gt_three
  rw [div_lt_one (by positivity)] at h2
  nlinarith

/-- `a·beta(a, 1/2) ≥ 1` for every half-integer `a = df/2`, `df ≥ 1`:
the denominator of the simplified incomplete beta dominates its
numerator. -/
theorem aBeta_ge_one (df : ℕ) (hdf : 1 ≤ df) :
    1 ≤ ((df : ℝ) / 2) * beta ((df : ℝ) / 2) (1/2) := by
  rcases eq_or_lt_of_le hdf with h1 | h2
  · rw [← h1]
    norm_num
    exact aBeta_ge_one_half
  · have : (2:ℕ) ≤ df := h2
    have ha : (1:ℝ) ≤ (df : ℝ) / 2 := by
      have : (2:ℝ) ≤ (df : ℝ) := by exact_mod_cast this
      linarith
    exact aBeta_ge_one_of_one_le _ ha

theorem incompleteBeta_nonneg (a b x : ℝ) (hD : 0 ≤ a * beta a b) :
    0 ≤ incompleteBeta a b x := by
  unfold incompleteBeta
  split_ifs with h1 h2
  · norm_num
  · norm_num
  · push_neg at h1 h2
    apply div_nonneg _ hD
    apply mul_nonneg
    · exact Real.rpow_nonneg h2.le a
    · exact Real.rpow_nonneg (by linarith) b

theorem incompleteBeta_le_one (a b x : ℝ) (ha : 0 ≤ a) (hb : 0 ≤ b)
    (hD : 1 ≤ a * beta a b) : incompleteBeta a b x ≤ 1 := by
  unfold incompleteBeta
  split_ifs with h1 h2
  · exact le_refl 1
  · norm_num
  · push_neg at h1 h2
    rw [div_le_one (by linarith)]
    have hn1 : x ^ a ≤ 1 := Real.rpow_le_one h2.le h1.le ha
    have hn2 : (1 - x) ^ b ≤ 1 := Real.rpow_le_one (by linarith) (by linarith) hb
    have hn0 : (0:ℝ) ≤ x ^ a := Real.rpow_nonneg h2.le a
    nlinarith

set_option linter.unusedVariables false in
/-- **C3.** For every correlation coefficient `r ∈ [-1, 1]` and every
sample size `n`, the two-sided correlation p-value lies in `[0, 1]`, and
it is exactly `1` when `n < 3`. -/
theorem correlation_pvalue_bounds (r : ℝ) (n : ℕ)
    (hr1 : -1 ≤ r) (hr2 : r ≤ 1) :
    0 ≤ calculateCorrelationPValue r n ∧
    calculateCorrelationPValue r n ≤ 1 ∧
    (n < 3 → calculateCorrelationPValue r n = 1) := by
  unfold calculateCorrelationPValue
  by_cases hn : n < 3
  · rw [if_pos hn]
    exact ⟨zero_le_one, le_refl 1, fun _ => rfl⟩
  · rw [if_neg hn]
    by_cases hz : 1 - r * r = 0
    · rw [if_pos hz]
      exact ⟨le_refl 0, zero_le_one, fun h => absurd h hn⟩
    · rw [if_neg hz]
      push_neg at hn
      have hn3 : (3:ℝ) ≤ (n : ℝ) := by exact_mod_cast hn
      have hdfN : ((n:ℝ) - 2) = ((n - 2 : ℕ) : ℝ) := by
        rw [Nat.cast_sub (by omega : 2 ≤ n)]
        norm_num
      have hD : 1 ≤ (((n:ℝ) - 2) / 2) * beta (((n:ℝ) - 2) / 2) (1/2) := by
        rw [hdfN]
        exact aBeta_ge_one (n - 2) (by omega)
      set t : ℝ := |r * Real.sqrt (((n:ℝ) - 2) / (1 - r * r))| with ht
      have hexpand : 2 * (1 - cumulativeStudentT t ((n:ℝ) - 2)) =
          incompleteBeta (((n:ℝ) - 2) / 2) (1/2)
            (((n:ℝ) - 2) / (((n:ℝ) - 2) + t * t)) := by
        unfold cumulativeStudentT
        ring
      rw [hexpand]
      refine ⟨incompleteBeta_nonneg _ _ _ (le_trans zero_le_one hD),
        incompleteBeta_le_one _ _ _ (by linarith) (by norm_num) hD,
        fun h => absurd h (by omega)⟩

theorem correlation_pvalue_bounds_witness :
    (-1 ≤ (1/2 : ℝ) ∧ (1/2 : ℝ) ≤ 1) ∧
    (0 ≤ calculateCorrelationPValue (1/2) 5 ∧
      calculateCorrelationPValue (1/2) 5 ≤ 1 ∧
      (5 < 3 → calculateCorrelationPValue (1/2) 5 = 1)) :=
  ⟨⟨by norm_num, by norm_num⟩,
    correlation_pvalue_bounds (1/2) 5 (by norm_num) (by norm_num)⟩

end StatisticalAnalysis
